import Mathlib

/-!
# JVM GC exporter: collector state, delta accounting, eviction and jstat parsing

A shallow embedding of `collector.go` and `utils.go`.

Modelling conventions.

* A finite Go `float64` value is the rational number it denotes. The float64
  subtraction of `updateMetrics` and the float64 additions of `Counter.Add` round to
  the nearest float64, ties to even (`roundFloat64`). The product by 1024 of
  `scrapeJstat` is written without rounding: 1024 is a power of two, so the product
  of a float64 by it is a float64. Infinities, NaN and overflow are outside the
  model.
* `strconv.Itoa`, `strings.Split`, `strings.Fields`, `sync.Map` and the
  Prometheus `GaugeVec` / `CounterVec` are library code; their documented
  behaviour is modelled by the definitions of the first sections.
* A call that does not return, because of a panic or because it blocks for ever, is
  modelled by `none`.
* The sampling tasks of one call of `Collect` touch the store and the vectors under
  their own pid only; in `Collect` they run one after the other. Their admission
  through the channel `sem` and the join on the `WaitGroup` are modelled apart, as a
  step system over all interleavings (`FanOut`).
-/

namespace JvmGc

/-! ## Library models -/

/-- Decimal digit character of a number below ten. -/
def digitChar (d : Nat) : Char := Char.ofNat (48 + d)

/-- Decimal numeral of a natural number, most significant digit first. -/
def natDigits (k : Nat) : List Char :=
  if k = 0 then ['0'] else ((Nat.digits 10 k).reverse.map digitChar)

/-- Model of `strconv.Itoa`: the decimal numeral, with a leading minus sign for
negative numbers. -/
def itoa : Int → String
  | Int.ofNat k => String.mk (natDigits k)
  | Int.negSucc k => String.mk ('-' :: natDigits (k + 1))

/-- Value of a decimal digit character (left inverse of `digitChar`). -/
def charDigit (c : Char) : Nat := c.toNat - 48

/-- Model of `unicode.IsSpace`: the Latin-1 cases and the `White_Space` table. -/
def isSpace (c : Char) : Bool :=
  let n := c.toNat
  (9 ≤ n && n ≤ 13) || n == 32 || n == 133 || n == 160 || n == 5760 ||
  (8192 ≤ n && n ≤ 8202) || n == 8232 || n == 8233 || n == 8239 || n == 8287 || n == 12288

/-- The pieces of a text between occurrences of the separator character. -/
def splitChars (sep : Char) : List Char → List (List Char)
  | [] => [[]]
  | c :: cs =>
    if c = sep then [] :: splitChars sep cs
    else
      match splitChars sep cs with
      | [] => [[c]]
      | l :: ls => (c :: l) :: ls

/-- Model of `strings.Split(s, sep)` for a one-character separator: one more piece
than there are separators, never an empty list. -/
def Split (s : String) (sep : Char) : List String :=
  (splitChars sep s.data).map String.mk

/-- The maximal runs of non-space characters; `cur` is the run being read,
reversed. -/
def fieldsAux : List Char → List Char → List (List Char)
  | [], cur => if cur.isEmpty then [] else [cur.reverse]
  | c :: cs, cur =>
    if isSpace c then
      if cur.isEmpty then fieldsAux cs [] else cur.reverse :: fieldsAux cs []
    else fieldsAux cs (c :: cur)

/-- Model of `strings.Fields`: the text split around runs of white space, without
empty fields. -/
def Fields (s : String) : List String :=
  (fieldsAux s.data []).map String.mk

/-- The integer nearest to a rational number, the even one of the two when it lies
half-way. -/
def roundHalfEven (x : ℚ) : ℤ :=
  let f := ⌊x⌋
  if x - f < 1 / 2 then f
  else if 1 / 2 < x - f then f + 1
  else if f % 2 = 0 then f else f + 1

/-- Model of the rounding of float64 arithmetic (round to nearest, ties to even): the
number is scaled by a power of two to a significand of 53 bits, the significand is
rounded, and the scale undone. The exponent is not bounded: overflow is outside the
model, and a sum or difference of two float64 values in the subnormal range is a
float64 itself, which the rounding leaves as it is. -/
def roundFloat64 (q : ℚ) : ℚ :=
  if q = 0 then 0
  else
    let e : ℤ := Int.log 2 |q| - 52
    (if q < 0 then -1 else 1) * ((roundHalfEven (|q| / (2 : ℚ) ^ e) : ℤ) : ℚ) * (2 : ℚ) ^ e

/-- The number a list of decimal digit characters denotes, `none` when a character
is not a digit. -/
def digitsValue : List Char → Nat → Option Nat
  | [], acc => some acc
  | c :: cs, acc =>
    if 48 ≤ c.toNat ∧ c.toNat ≤ 57 then digitsValue cs (acc * 10 + charDigit c) else none

/-- An unsigned decimal literal `digits[.digits]` with at least one digit, as its
digits read as one number and the count of fraction digits. -/
def unsignedDecimal (cs : List Char) : Option (Nat × Nat) :=
  let ip := cs.takeWhile (fun c => c != '.')
  let fp := (cs.dropWhile (fun c => c != '.')).drop 1
  if ip.isEmpty && fp.isEmpty then none
  else
    match digitsValue (ip ++ fp) 0 with
    | some m => some (m, fp.length)
    | none => none

/-- A signed decimal literal: whether it is negative, its digits read as one
number, and the count of fraction digits. -/
def decimalParts (cs : List Char) : Option (Bool × Nat × Nat) :=
  match cs with
  | [] => none
  | c :: t =>
    if c = '-' then (unsignedDecimal t).map (fun r => (true, r))
    else if c = '+' then (unsignedDecimal t).map (fun r => (false, r))
    else (unsignedDecimal (c :: t)).map (fun r => (false, r))

/-- The decimal-literal fragment of `strconv.ParseFloat(s, 64)`, as value and
success flag: an optional sign, digits and an optional fraction, read as the float64
nearest to the decimal number. On a syntax error `ParseFloat` returns 0 together with
its error; every token outside the fragment is treated as one. -/
def parseDecimal (s : String) : ℚ × Bool :=
  match decimalParts s.data with
  | some (neg, m, k) =>
    (roundFloat64 ((if neg then -(m : ℚ) else (m : ℚ)) / (10 : ℚ) ^ k), true)
  | none => (0, false)

/-- The label set of a series: `prometheus.Labels{"pid": ..., "app": ...}`. -/
structure Labels where
  pid : String
  app : String
deriving DecidableEq, Repr

/-- The series of one `GaugeVec`: the value of each label set that has a series. -/
abbrev MetricVec := Labels → Option ℚ

/-- Model of `GaugeVec.With(labels).Set(x)`: the series is created when absent and
its value replaced. -/
def MetricVec.set (v : MetricVec) (labels : Labels) (x : ℚ) : MetricVec :=
  fun k => if k = labels then some x else v k

/-- Model of `DeletePartialMatch(prometheus.Labels{"pid": pid})`: every series
whose pid label is `pid` is deleted, whatever its app label. -/
def MetricVec.deletePartialMatch (v : MetricVec) (pid : String) : MetricVec :=
  fun k => if k.pid = pid then none else v k

/-- A series of a `CounterVec` as the Prometheus client keeps it (`counter.go`): the
sum `valInt` of the increments that are whole numbers, held in a `uint64`, and the
float64 sum `valBits` of the other increments. Wrap-around of the `uint64` is outside
the model. -/
structure CounterSeries where
  valInt : Nat
  valBits : ℚ
deriving DecidableEq, Repr

/-- A series that `With(labels)` has just created. -/
def CounterSeries.zero : CounterSeries := { valInt := 0, valBits := 0 }

/-- The effect of `Counter.Add(v)` for `v ≥ 0`: with `ival := uint64(v)`, when
`float64(ival) == v` the increment goes to `valInt`; otherwise `valBits` becomes the
float64 sum of `valBits` and `v`. -/
def CounterSeries.added (s : CounterSeries) (v : ℚ) : CounterSeries :=
  let ival := ⌊v⌋₊
  if (ival : ℚ) = v then { s with valInt := s.valInt + ival }
  else { s with valBits := roundFloat64 (s.valBits + v) }

/-- The value the counter reports (`get`): the float64 sum of `valBits` and
`float64(valInt)`. -/
def CounterSeries.get (s : CounterSeries) : ℚ :=
  roundFloat64 (s.valBits + roundFloat64 (s.valInt : ℚ))

/-- The series of one `CounterVec`. -/
abbrev CounterVec := Labels → Option CounterSeries

/-- Model of `CounterVec.With(labels).Add(x)`: the series is created when absent and
`x` added to it; `Counter.Add` panics when `x < 0`. -/
def CounterVec.add (v : CounterVec) (labels : Labels) (x : ℚ) : Option CounterVec :=
  if x < 0 then none
  else some (fun k =>
    if k = labels then some (((v k).getD CounterSeries.zero).added x) else v k)

/-- Model of `DeletePartialMatch(prometheus.Labels{"pid": pid})` on a `CounterVec`. -/
def CounterVec.deletePartialMatch (v : CounterVec) (pid : String) : CounterVec :=
  fun k => if k.pid = pid then none else v k

/-! ## Data model (`collector.go`) -/

/-- The snapshot `gcMetrics` of `collector.go`; the fields are float64 values. -/
structure gcMetrics where
  s0c : ℚ
  s1c : ℚ
  s0u : ℚ
  s1u : ℚ
  ec : ℚ
  eu : ℚ
  oc : ℚ
  ou : ℚ
  mc : ℚ
  mu : ℚ
  ccsc : ℚ
  ccsu : ℚ
  ygc : ℚ
  fgc : ℚ
  ygct : ℚ
  fgct : ℚ
  gct : ℚ
deriving DecidableEq, Repr

/-- The zero value of `gcMetrics` (a Go composite literal leaves the fields it
does not name at zero). -/
def gcMetrics.zero : gcMetrics :=
  ⟨0, 0, 0, 0, 0, 0, 0, 0, 0, 0, 0, 0, 0, 0, 0, 0, 0⟩

/-- Model of the `sync.Map` held in `lastMetrics`: an association list from pid
to the last snapshot. -/
abbrev StateStore := List (Int × gcMetrics)

/-- Model of `sync.Map.Load`. -/
def StateStore.load (s : StateStore) (pid : Int) : Option gcMetrics :=
  (s.find? (fun e => e.1 == pid)).map Prod.snd

/-- Model of `sync.Map.Delete`. -/
def StateStore.delete (s : StateStore) (pid : Int) : StateStore :=
  s.filter (fun e => !(e.1 == pid))

/-- Model of `sync.Map.Store`: the entry of `pid` is replaced. -/
def StateStore.store (s : StateStore) (pid : Int) (m : gcMetrics) : StateStore :=
  (pid, m) :: StateStore.delete s pid

/-- The keys `sync.Map.Range` visits. -/
def StateStore.keys (s : StateStore) : List Int := s.map Prod.fst

/-- The collector `JvmGcCollector`: the gauge vectors and counter vectors by map
key, the last snapshot of each pid, and the (unused) `lastPids`. -/
structure JvmGcCollector where
  metrics : String → MetricVec
  counters : String → CounterVec
  lastMetrics : StateStore
  lastPids : List Int

/-- The keys of the `metrics` map built by `NewJvmGcCollector`. -/
def gaugeKeys : List String :=
  ["s0_capacity", "s1_capacity", "s0_usage", "s1_usage", "eden_capacity", "eden_usage",
   "old_capacity", "old_usage", "meta_capacity", "meta_usage", "class_capacity", "class_usage"]

/-- The keys of the `counters` map built by `NewJvmGcCollector`. -/
def counterKeys : List String :=
  ["young_gc_count", "young_gc_time", "full_gc_count", "full_gc_time", "total_gc_time"]

/-- The collector `NewJvmGcCollector` returns: no series, no state. -/
def NewJvmGcCollector : JvmGcCollector :=
  { metrics := fun _ _ => none, counters := fun _ _ => none, lastMetrics := [], lastPids := [] }

/-- The call `c.metrics[key].With(labels).Set(x)`. -/
def JvmGcCollector.gaugeSet (c : JvmGcCollector) (key : String) (labels : Labels) (x : ℚ) :
    JvmGcCollector :=
  { c with metrics := fun n => if n = key then (c.metrics n).set labels x else c.metrics n }

/-- The call `c.counters[key].With(labels).Add(x)`; `none` when `Add` panics. -/
def JvmGcCollector.counterAdd (c : JvmGcCollector) (key : String) (labels : Labels) (x : ℚ) :
    Option JvmGcCollector :=
  match (c.counters key).add labels x with
  | none => none
  | some v => some { c with counters := fun n => if n = key then v else c.counters n }

/-! ## Eviction (`collector.go`, `cleanupStaleMetrics` and `removeMetrics`) -/

/-- The function `removeMetrics`: the state of `pid` is deleted, and in every gauge
and counter vector of the collector the series carrying the pid label. -/
def removeMetrics (c : JvmGcCollector) (pid : Int) : JvmGcCollector :=
  { c with
    lastMetrics := c.lastMetrics.delete pid
    metrics := fun n =>
      if n ∈ gaugeKeys then (c.metrics n).deletePartialMatch (itoa pid) else c.metrics n
    counters := fun n =>
      if n ∈ counterKeys then (c.counters n).deletePartialMatch (itoa pid) else c.counters n }

/-- The function `cleanupStaleMetrics`: the keys of the store that are not in
`current` are collected, then each is removed. -/
def cleanupStaleMetrics (c : JvmGcCollector) (current : List Int) : JvmGcCollector :=
  let toDelete := c.lastMetrics.keys.filter (fun pid => !(current.contains pid))
  toDelete.foldl removeMetrics c

/-! ## Delta engine (`collector.go`, `updateMetrics`) -/

/-- The `delta` literal of `updateMetrics`: the five counter differences, each a
float64 subtraction, every other field zero. -/
def delta (metrics lastMetrics : gcMetrics) : gcMetrics :=
  { gcMetrics.zero with
    ygc := roundFloat64 (metrics.ygc - lastMetrics.ygc)
    ygct := roundFloat64 (metrics.ygct - lastMetrics.ygct)
    fgc := roundFloat64 (metrics.fgc - lastMetrics.fgc)
    fgct := roundFloat64 (metrics.fgct - lastMetrics.fgct)
    gct := roundFloat64 (metrics.gct - lastMetrics.gct) }

/-- The twelve `Set` calls that open `updateMetrics`. -/
def setGauges (c : JvmGcCollector) (labels : Labels) (metrics : gcMetrics) : JvmGcCollector :=
  let c := c.gaugeSet "s0_capacity" labels metrics.s0c
  let c := c.gaugeSet "s1_capacity" labels metrics.s1c
  let c := c.gaugeSet "s0_usage" labels metrics.s0u
  let c := c.gaugeSet "s1_usage" labels metrics.s1u
  let c := c.gaugeSet "eden_capacity" labels metrics.ec
  let c := c.gaugeSet "eden_usage" labels metrics.eu
  let c := c.gaugeSet "old_capacity" labels metrics.oc
  let c := c.gaugeSet "old_usage" labels metrics.ou
  let c := c.gaugeSet "meta_capacity" labels metrics.mc
  let c := c.gaugeSet "meta_usage" labels metrics.mu
  let c := c.gaugeSet "class_capacity" labels metrics.ccsc
  c.gaugeSet "class_usage" labels metrics.ccsu

/-- The five `Add` calls of `updateMetrics`, in source order; `none` as soon as one
panics. -/
def addCounters (c : JvmGcCollector) (labels : Labels) (d : gcMetrics) : Option JvmGcCollector := do
  let c ← c.counterAdd "young_gc_count" labels d.ygc
  let c ← c.counterAdd "young_gc_time" labels d.ygct
  let c ← c.counterAdd "full_gc_count" labels d.fgc
  let c ← c.counterAdd "full_gc_time" labels d.fgct
  c.counterAdd "total_gc_time" labels d.gct

/-- The function `updateMetrics`: the gauges are set, then, when the pid has a
stored snapshot, the counter differences are added; the snapshot is stored. The
result is `none` when a call panics. -/
def updateMetrics (c : JvmGcCollector) (pid : Int) (app : String) (metrics : gcMetrics) :
    Option JvmGcCollector :=
  let labels : Labels := { pid := itoa pid, app := app }
  let c := setGauges c labels metrics
  match c.lastMetrics.load pid with
  | none => some { c with lastMetrics := c.lastMetrics.store pid metrics }
  | some lastMetrics =>
    match addCounters c labels (delta metrics lastMetrics) with
    | none => none
    | some c => some { c with lastMetrics := c.lastMetrics.store pid metrics }

/-! ## Sampling (`utils.go`, `scrapeJstat`) -/

/-- The `data` map of `scrapeJstat` after the loop over the headers: a missing key
reads as 0, and a later header overwrites an earlier one of the same name. The
error `strconv.ParseFloat` returns is discarded, as in `val, _ := ...`. The loop
reads `values[i]` for every header index `i`; it is reached with lists of equal
length and runs here over the zipped lists. -/
def buildData (parseFloat : String → ℚ × Bool) (headers values : List String) : String → ℚ :=
  (headers.zip values).foldl
    (fun data hv => fun k => if k = hv.1 then (parseFloat hv.2).1 else data k)
    (fun _ => 0)

/-- The part of `scrapeJstat` that follows the run of the command: the output is
split in lines, the first two lines in fields, and the snapshot built. -/
def parseOutput (parseFloat : String → ℚ × Bool) (out : String) : Except String gcMetrics :=
  match Split out '\n' with
  | l0 :: l1 :: _ =>
    let headers := Fields l0
    let values := Fields l1
    if headers.length ≠ values.length then
      Except.error "header/value mismatch"
    else
      let data := buildData parseFloat headers values
      Except.ok
        { s0c := data "S0C" * 1024
          s1c := data "S1C" * 1024
          s0u := data "S0U" * 1024
          s1u := data "S1U" * 1024
          ec := data "EC" * 1024
          eu := data "EU" * 1024
          oc := data "OC" * 1024
          ou := data "OU" * 1024
          mc := data "MC" * 1024
          mu := data "MU" * 1024
          ccsc := data "CCSC" * 1024
          ccsu := data "CCSU" * 1024
          ygc := data "YGC"
          fgc := data "FGC"
          ygct := data "YGCT"
          fgct := data "FGCT"
          gct := data "GCT" }
  | _ => Except.error "invalid jstat output"

/-- The function `scrapeJstat`; `run` is the standard output of the `jstat -gc`
command, or `none` when `cmd.Run` fails. -/
def scrapeJstat (parseFloat : String → ℚ × Bool) (run : Option String) : Except String gcMetrics :=
  match run with
  | none => Except.error "jstat failed"
  | some out => parseOutput parseFloat out

/-! ## Successive samples of one process -/

/-- No cumulative counter of `a` exceeds the one of `b`. -/
def countersLe (a b : gcMetrics) : Prop :=
  a.ygc ≤ b.ygc ∧ a.ygct ≤ b.ygct ∧ a.fgc ≤ b.fgc ∧ a.fgct ≤ b.fgct ∧ a.gct ≤ b.gct

/-- The increments the successive snapshots of one process yield for the counter read
by `f`: the float64 differences of consecutive snapshots. -/
def increments (f : gcMetrics → ℚ) : List gcMetrics → List ℚ
  | a :: b :: rest => roundFloat64 (f b - f a) :: increments f (b :: rest)
  | _ => []

/-- The series after `Counter.Add` of the increments, in order. -/
def CounterSeries.addAll (s : CounterSeries) (incs : List ℚ) : CounterSeries :=
  incs.foldl CounterSeries.added s

/-- Successive calls of `updateMetrics` for one pid and label, one per snapshot, with
no eviction in between; `none` as soon as a call panics. -/
def applySnapshots (c : JvmGcCollector) (pid : Int) (app : String) :
    List gcMetrics → Option JvmGcCollector
  | [] => some c
  | s :: rest =>
    match updateMetrics c pid app s with
    | none => none
    | some c2 => applySnapshots c2 pid app rest

/-! ## One collection cycle (`collector.go`, `Collect`) -/

/-- What one call of `Collect` reads from the host: the pid of the exporter, the
result of `getJavaPids` (`none` for an error), the answers of `isProcessAlive` when
`filterAlivePids` runs and later inside the sampling tasks, the label of a pid, the
output of `jstat -gc` for a pid (`none` when the command fails),
`strconv.ParseFloat`, and `config.MaxConcurrentScrapes`. -/
structure Host where
  currentPID : Int
  getJavaPids : Option (List Int)
  aliveAtFilter : Int → Bool
  aliveInTask : Int → Bool
  getAppName : Int → String
  jstat : Int → Option String
  parseFloat : String → ℚ × Bool
  maxConcurrentScrapes : Int

/-- The function `filterAlivePids`. -/
def filterAlivePids (h : Host) (pids : List Int) : List Int :=
  pids.filter h.aliveAtFilter

/-- The body of the goroutine `Collect` starts for a pid: a process that is gone or
a failed scrape leaves the collector as it is. -/
def scrapeTask (h : Host) (c : JvmGcCollector) (pid : Int) : Option JvmGcCollector :=
  if !h.aliveInTask pid then some c
  else
    let app := h.getAppName pid
    match scrapeJstat h.parseFloat (h.jstat pid) with
    | Except.error _ => some c
    | Except.ok metrics => updateMetrics c pid app metrics

/-- The fan-out loop of `Collect` with the tasks admitted: they run one after the
other in the order of the list; the pid of the exporter is skipped. -/
def runTasks (h : Host) (c : JvmGcCollector) : List Int → Option JvmGcCollector
  | [] => some c
  | pid :: rest =>
    if pid = h.currentPID then runTasks h c rest
    else
      match scrapeTask h c pid with
      | none => none
      | some c2 => runTasks h c2 rest

/-- The function `Collect` up to the return of `wg.Wait()`. Nothing is touched when
`getJavaPids` fails; otherwise the live pids are sorted and the stale entries
evicted. Then `make(chan struct{}, config.MaxConcurrentScrapes)` panics on a negative
capacity; with capacity 0 no send on `sem` ever completes, so as soon as one task is
started `wg.Wait()` never returns; otherwise the tasks run. -/
def Collect (h : Host) (c : JvmGcCollector) : Option JvmGcCollector :=
  match h.getJavaPids with
  | none => some c
  | some pids =>
    let alivePids := (filterAlivePids h pids).insertionSort (fun a b => a ≤ b)
    let c := cleanupStaleMetrics c alivePids
    if h.maxConcurrentScrapes < 0 then none
    else if h.maxConcurrentScrapes = 0 ∧ alivePids.any (fun pid => pid != h.currentPID) then none
    else runTasks h c alivePids

/-! ## The admission gate of `Collect` -/

/-- Where a sampling task started by `Collect` stands: started but not yet past
`sem <- struct{}{}`; holding a slot; past the deferred `<-sem` but not yet past the
deferred `wg.Done()`; finished. The deferred calls run in reverse order of their
registration, so the slot is given back before `wg.Done()`. -/
inductive TaskPhase
  | waiting
  | inFlight
  | released
  | done
deriving DecidableEq, Repr

/-- The state of the fan-out of one call of `Collect`: the capacity of the channel
`sem` (`config.MaxConcurrentScrapes`), the pids the loop has yet to visit, the tasks
started so far, the number of elements buffered in `sem`, the counter of the
`WaitGroup`, and whether `wg.Wait()` has returned. -/
structure FanOut where
  cap : Nat
  pending : List Int
  tasks : List (Int × TaskPhase)
  sem : Nat
  wg : Nat
  joined : Bool
deriving DecidableEq, Repr

/-- The atomic steps of the fan-out: the loop visits its next pid; task `i` completes
its send on `sem`; task `i` runs its deferred receive from `sem`; task `i` runs its
deferred `wg.Done()`; `wg.Wait()` returns. -/
inductive Event
  | spawn
  | acquire (i : Nat)
  | release (i : Nat)
  | finish (i : Nat)
  | join
deriving DecidableEq, Repr

/-- The fan-out when the loop of `Collect` starts. -/
def FanOut.init (cap : Nat) (alivePids : List Int) : FanOut :=
  { cap := cap, pending := alivePids, tasks := [], sem := 0, wg := 0, joined := false }

/-- The number of tasks in a phase. -/
def FanOut.count (s : FanOut) (ph : TaskPhase) : Nat :=
  s.tasks.countP (fun t => decide (t.2 = ph))

/-- One step of the fan-out, `none` when the step cannot be taken: a send on a full
channel and a receive on an empty one block, `wg.Wait()` blocks while the counter is
not zero, and the loop comes before `wg.Wait()` in program order. -/
def FanOut.step (currentPID : Int) (s : FanOut) : Event → Option FanOut
  | Event.spawn =>
    match s.pending with
    | [] => none
    | pid :: rest =>
      if s.joined then none
      else if pid = currentPID then some { s with pending := rest }
      else some { s with pending := rest, wg := s.wg + 1, tasks := s.tasks ++ [(pid, TaskPhase.waiting)] }
  | Event.acquire i =>
    match s.tasks[i]? with
    | some (pid, TaskPhase.waiting) =>
      if s.sem < s.cap then
        some { s with sem := s.sem + 1, tasks := s.tasks.set i (pid, TaskPhase.inFlight) }
      else none
    | _ => none
  | Event.release i =>
    match s.tasks[i]? with
    | some (pid, TaskPhase.inFlight) =>
      if 0 < s.sem then
        some { s with sem := s.sem - 1, tasks := s.tasks.set i (pid, TaskPhase.released) }
      else none
    | _ => none
  | Event.finish i =>
    match s.tasks[i]? with
    | some (pid, TaskPhase.released) =>
      if 0 < s.wg then
        some { s with wg := s.wg - 1, tasks := s.tasks.set i (pid, TaskPhase.done) }
      else none
    | _ => none
  | Event.join =>
    if s.pending = [] ∧ s.wg = 0 ∧ s.joined = false then some { s with joined := true }
    else none

/-- A schedule: the steps taken one after the other, `none` when one of them cannot
be taken. -/
def FanOut.run (currentPID : Int) (s : FanOut) : List Event → Option FanOut
  | [] => some s
  | e :: es =>
    match FanOut.step currentPID s e with
    | none => none
    | some s2 => FanOut.run currentPID s2 es

/-- The invariant of the fan-out: the elements buffered in `sem` are the slots held,
at most `cap` of them; the `WaitGroup` counts the tasks that have not finished; and
`wg.Wait()` has returned only after the loop ended and the counter reached zero. -/
def FanOut.Inv (s : FanOut) : Prop :=
  s.sem = s.count TaskPhase.inFlight ∧ s.sem ≤ s.cap ∧
  s.wg + s.count TaskPhase.done = s.tasks.length ∧
  (s.joined = true → s.pending = [] ∧ s.wg = 0)

/-! ## Worked example -/

/-- The snapshot of the first sample of pid 101 in the worked example: the values
`100 100 500 50 1000 200 50 10 20 5 3 0.05 1 0.2 0.25`, capacities in bytes, the
times `0.05` and `0.2` as the float64 values nearest to them. -/
def exampleFirst : gcMetrics :=
  { s0c := 102400, s1c := 102400, s0u := 0, s1u := 0, ec := 512000, eu := 51200,
    oc := 1024000, ou := 204800, mc := 51200, mu := 10240, ccsc := 20480, ccsu := 5120,
    ygc := 3, fgc := 1, ygct := 3602879701896397 / 2 ^ 56, fgct := 3602879701896397 / 2 ^ 54,
    gct := 1 / 4 }

/-- A later snapshot of the same process: the young collection count has grown to 5. -/
def exampleSecond : gcMetrics := { exampleFirst with ygc := 5 }

/-- A later snapshot whose young collection count has fallen back to 1. -/
def exampleRegressed : gcMetrics := { exampleFirst with ygc := 1 }

/-- The collector after the first sample of pid 101 under the label `app`. -/
def exampleCollector : JvmGcCollector :=
  { setGauges NewJvmGcCollector ⟨itoa 101, "app"⟩ exampleFirst with
    lastMetrics := [(101, exampleFirst)] }

/-- A snapshot whose total collection time is the float64 nearest to 0.1. -/
def exampleTenth : gcMetrics := { exampleFirst with gct := 3602879701896397 / 2 ^ 55 }

/-- A later snapshot whose total collection time is the float64 nearest to 1.1. -/
def exampleEleven : gcMetrics := { exampleFirst with gct := 2476979795053773 / 2 ^ 51 }

/-- The collector after a first sample `exampleTenth` of pid 101 under the label `app`. -/
def exampleTenthCollector : JvmGcCollector :=
  { setGauges NewJvmGcCollector ⟨itoa 101, "app"⟩ exampleTenth with
    lastMetrics := [(101, exampleTenth)] }

/-- A snapshot whose young collection time is the float64 nearest to 0.001. -/
def exampleTime1 : gcMetrics := { exampleFirst with ygct := 1152921504606847 / 2 ^ 60 }

/-- A later snapshot whose young collection time is the float64 nearest to 0.002. -/
def exampleTime2 : gcMetrics := { exampleFirst with ygct := 1152921504606847 / 2 ^ 59 }

/-- A still later snapshot whose young collection time is the float64 nearest to
0.018. -/
def exampleTime3 : gcMetrics := { exampleFirst with ygct := 5188146770730811 / 2 ^ 58 }

/-- Three successive snapshots of one process. -/
def exampleTimes : List gcMetrics := [exampleTime1, exampleTime2, exampleTime3]

/-- The collector after a first sample `exampleTime1` of pid 101 under the label `app`. -/
def exampleTimeCollector : JvmGcCollector :=
  { setGauges NewJvmGcCollector ⟨itoa 101, "app"⟩ exampleTime1 with
    lastMetrics := [(101, exampleTime1)] }

/-- The output of `jstat -gc` in the worked example. -/
def exampleOutput : String :=
  "S0C S1C EC EU OC OU MC MU CCSC CCSU YGC YGCT FGC FGCT GCT\n100 100 500 50 1000 200 50 10 20 5 3 0.05 1 0.2 0.25\n"

/-- A schedule of the fan-out over the pids 101, 1 and 202 with one slot, the exporter
having pid 1. -/
def exampleSchedule : List Event :=
  [Event.spawn, Event.spawn, Event.spawn, Event.acquire 0, Event.release 0, Event.acquire 1,
    Event.finish 0, Event.release 1, Event.finish 1, Event.join]

/-- The fan-out at the end of `exampleSchedule`. -/
def exampleJoined : FanOut :=
  { cap := 1, pending := [], tasks := [(101, TaskPhase.done), (202, TaskPhase.done)],
    sem := 0, wg := 0, joined := true }

/-- A host with the live processes 202 and 303, each answering with `exampleOutput`. -/
def exampleHost : Host :=
  { currentPID := 1, getJavaPids := some [202, 303], aliveAtFilter := fun _ => true,
    aliveInTask := fun _ => true, getAppName := fun _ => "app",
    jstat := fun _ => some exampleOutput, parseFloat := parseDecimal,
    maxConcurrentScrapes := 50 }

/-! ## Lemmas on the float64 rounding -/

theorem roundHalfEven_intCast (z : ℤ) : roundHalfEven (z : ℚ) = z := by
  simp [roundHalfEven]

theorem floor_le_roundHalfEven (x : ℚ) : ⌊x⌋ ≤ roundHalfEven x := by
  unfold roundHalfEven
  simp only
  split
  · exact le_refl _
  · split
    · omega
    · split <;> omega

theorem roundHalfEven_pos (x : ℚ) (hx : 1 ≤ x) : 0 < roundHalfEven x := by
  have h1 : (1 : ℤ) ≤ ⌊x⌋ := Int.le_floor.mpr (by simpa using hx)
  have h2 := floor_le_roundHalfEven x
  omega

theorem two_zpow_pos (e : ℤ) : (0 : ℚ) < (2 : ℚ) ^ e := zpow_pos (by norm_num) e

theorem scaled_ge (a : ℚ) (ha : 0 < a) : (2 : ℚ) ^ (52 : ℤ) ≤ a / (2 : ℚ) ^ (Int.log 2 a - 52) := by
  have h := Int.zpow_log_le_self (b := 2) (r := a) (by norm_num) ha
  rw [le_div_iff₀ (two_zpow_pos _), ← zpow_add₀ (by norm_num : (2 : ℚ) ≠ 0)]
  simpa using h

theorem roundFloat64_zero : roundFloat64 0 = 0 := by simp [roundFloat64]

theorem mantissa_pos (a : ℚ) (ha : 0 < a) :
    0 < roundHalfEven (a / (2 : ℚ) ^ (Int.log 2 a - 52)) := by
  apply roundHalfEven_pos
  refine le_trans ?_ (scaled_ge a ha)
  norm_num

theorem roundFloat64_pos (q : ℚ) (hq : 0 < q) : 0 < roundFloat64 q := by
  unfold roundFloat64
  rw [if_neg (ne_of_gt hq)]
  simp only [if_neg (not_lt.mpr (le_of_lt hq)), abs_of_pos hq, one_mul]
  exact mul_pos (by exact_mod_cast mantissa_pos q hq) (two_zpow_pos _)

theorem roundFloat64_neg (q : ℚ) : roundFloat64 (-q) = -roundFloat64 q := by
  unfold roundFloat64
  by_cases h0 : q = 0
  · simp [h0]
  · have h0n : -q ≠ 0 := neg_ne_zero.mpr h0
    rw [if_neg h0, if_neg h0n, abs_neg]
    rcases lt_or_gt_of_ne h0 with h | h
    · have : ¬ (-q < 0) := by linarith
      simp only [if_pos h, if_neg this]
      ring
    · have : -q < 0 := by linarith
      have h2 : ¬ q < 0 := by linarith
      simp only [if_pos this, if_neg h2]
      ring

theorem roundFloat64_neg_of_neg (q : ℚ) (hq : q < 0) : roundFloat64 q < 0 := by
  have := roundFloat64_pos (-q) (by linarith)
  rw [roundFloat64_neg] at this
  linarith

theorem roundFloat64_nonneg (q : ℚ) (hq : 0 ≤ q) : 0 ≤ roundFloat64 q := by
  rcases eq_or_lt_of_le hq with h | h
  · rw [← h, roundFloat64_zero]
  · exact le_of_lt (roundFloat64_pos q h)

theorem log_eq_of_bounds (q : ℚ) (k : ℤ) (hq : 0 < q) (hlo : (2 : ℚ) ^ k ≤ q)
    (hhi : q < (2 : ℚ) ^ (k + 1)) : Int.log 2 q = k := by
  have h1 : k ≤ Int.log 2 q := (Int.zpow_le_iff_le_log (b := 2) (by norm_num) hq).mp (by simpa using hlo)
  have h2 : Int.log 2 q < k + 1 :=
    (Int.lt_zpow_iff_log_lt (b := 2) (by norm_num) hq).mp (by simpa using hhi)
  omega

/-- Evaluation of the rounding at a positive number of known binary exponent. -/
theorem roundFloat64_of_bounds (q : ℚ) (e : ℤ) (hq : 0 < q) (hlo : (2 : ℚ) ^ (e + 52) ≤ q)
    (hhi : q < (2 : ℚ) ^ (e + 53)) :
    roundFloat64 q = ((roundHalfEven (q / (2 : ℚ) ^ e) : ℤ) : ℚ) * (2 : ℚ) ^ e := by
  have hl : Int.log 2 q = e + 52 :=
    log_eq_of_bounds q (e + 52) hq hlo (by rw [show e + 52 + 1 = e + 53 by ring]; exact hhi)
  unfold roundFloat64
  rw [if_neg (ne_of_gt hq)]
  simp only [if_neg (not_lt.mpr (le_of_lt hq)), abs_of_pos hq, one_mul, hl]
  rw [show e + 52 - 52 = e by ring]

theorem roundHalfEven_of_lt_half (x : ℚ) (f : ℤ) (h1 : (f : ℚ) ≤ x) (h2 : x - f < 1 / 2) :
    roundHalfEven x = f := by
  have hf : ⌊x⌋ = f := Int.floor_eq_iff.mpr ⟨h1, by linarith⟩
  unfold roundHalfEven
  simp only [hf, if_pos h2]

theorem roundHalfEven_of_gt_half (x : ℚ) (f : ℤ) (h1 : 1 / 2 < x - f) (h2 : x < f + 1) :
    roundHalfEven x = f + 1 := by
  have hf : ⌊x⌋ = f := Int.floor_eq_iff.mpr ⟨by linarith, h2⟩
  unfold roundHalfEven
  simp only [hf, if_neg (not_lt.mpr (le_of_lt h1)), if_pos h1]

theorem roundHalfEven_of_eq_half_odd (x : ℚ) (f : ℤ) (h1 : x - f = 1 / 2) (h2 : f % 2 = 1) :
    roundHalfEven x = f + 1 := by
  have hf : ⌊x⌋ = f := Int.floor_eq_iff.mpr ⟨by linarith, by linarith⟩
  unfold roundHalfEven
  simp only [hf, h1, lt_irrefl, if_false]
  rw [if_neg (by omega)]

/-- A positive number with a significand below `2 ^ 53` is its own rounding. -/
theorem roundFloat64_of_significand (q : ℚ) (M : ℕ) (E : ℤ) (hM : 0 < M) (hlt : M < 2 ^ 53)
    (hq : q = (M : ℚ) * (2 : ℚ) ^ E) : roundFloat64 q = q := by
  have hMq : (0 : ℚ) < M := by exact_mod_cast hM
  have hqpos : 0 < q := by rw [hq]; exact mul_pos hMq (two_zpow_pos E)
  have hupper : q < (2 : ℚ) ^ (E + 53) := by
    rw [hq, zpow_add₀ (by norm_num : (2 : ℚ) ≠ 0), mul_comm]
    apply mul_lt_mul_of_pos_left _ (two_zpow_pos E)
    rw [show (53 : ℤ) = ((53 : ℕ) : ℤ) by norm_num, zpow_natCast]
    exact_mod_cast hlt
  have hlog : Int.log 2 q < E + 53 :=
    (Int.lt_zpow_iff_log_lt (b := 2) (by norm_num) hqpos).mp (by simpa using hupper)
  obtain ⟨d, hd⟩ : ∃ d : ℕ, E - (Int.log 2 q - 52) = d := ⟨(E - (Int.log 2 q - 52)).toNat,
    (Int.toNat_of_nonneg (by omega)).symm⟩
  have hx : q / (2 : ℚ) ^ (Int.log 2 q - 52) = (((M * 2 ^ d : ℕ) : ℤ) : ℚ) := by
    have h2 : q / (2 : ℚ) ^ (Int.log 2 q - 52) = (M : ℚ) * (2 : ℚ) ^ (E - (Int.log 2 q - 52)) := by
      rw [zpow_sub₀ (by norm_num : (2 : ℚ) ≠ 0) E (Int.log 2 q - 52), ← mul_div_assoc, ← hq]
    rw [h2, hd, zpow_natCast]
    push_cast
    rfl
  unfold roundFloat64
  rw [if_neg (ne_of_gt hqpos)]
  simp only [if_neg (not_lt.mpr (le_of_lt hqpos)), abs_of_pos hqpos, one_mul]
  rw [hx, roundHalfEven_intCast, ← hx, div_mul_cancel₀ _ (ne_of_gt (two_zpow_pos _))]

theorem roundFloat64_natCast (n : ℕ) (hn : n ≤ 2 ^ 53) : roundFloat64 (n : ℚ) = n := by
  rcases Nat.eq_zero_or_pos n with h0 | hpos
  · subst h0; simp [roundFloat64_zero]
  · rcases Nat.lt_or_eq_of_le hn with hlt | heq
    · exact roundFloat64_of_significand _ n 0 hpos hlt (by simp)
    · subst heq
      exact roundFloat64_of_significand _ 1 53 (by norm_num) (by norm_num) (by norm_num)

/-! ## Lemmas on `strconv.Itoa` -/

theorem charDigit_digitChar (d : Nat) (h : d < 10) : charDigit (digitChar d) = d := by
  interval_cases d <;> rfl

theorem map_charDigit_digitChar (l : List Nat) (h : ∀ d ∈ l, d < 10) :
    (l.map digitChar).map charDigit = l := by
  induction l with
  | nil => rfl
  | cons a t ih =>
    simp only [List.map_cons, List.cons.injEq]
    exact ⟨charDigit_digitChar a (h a (List.mem_cons_self a t)),
      ih (fun d hd => h d (List.mem_cons_of_mem a hd))⟩

theorem natDigits_injective (a b : Nat) (h : natDigits a = natDigits b) : a = b := by
  have key : ∀ k, (natDigits k).map charDigit = if k = 0 then [0] else (Nat.digits 10 k).reverse := by
    intro k
    unfold natDigits
    split
    · rfl
    · exact map_charDigit_digitChar _ (fun d hd => Nat.digits_lt_base (by norm_num) (List.mem_reverse.mp hd))
  have h2 := congrArg (List.map charDigit) h
  rw [key a, key b] at h2
  have hne : ∀ k, k ≠ 0 → (Nat.digits 10 k).reverse ≠ [0] := by
    intro k hk hrev
    have h3 : Nat.digits 10 k = [0] := by
      have := congrArg List.reverse hrev
      simpa using this
    have h4 := Nat.getLast_digit_ne_zero 10 hk
    simp [h3] at h4
  by_cases ha : a = 0 <;> by_cases hb : b = 0
  · rw [ha, hb]
  · rw [if_pos ha, if_neg hb] at h2
    exact absurd h2.symm (hne b hb)
  · rw [if_neg ha, if_pos hb] at h2
    exact absurd h2 (hne a ha)
  · rw [if_neg ha, if_neg hb] at h2
    exact Nat.digits_inj_iff.mp (List.reverse_injective h2)

theorem mem_natDigits_ne_minus (k : Nat) (c : Char) (h : c ∈ natDigits k) : c ≠ '-' := by
  unfold natDigits at h
  split at h
  · simp at h; rw [h]; decide
  · simp only [List.mem_map, List.mem_reverse] at h
    obtain ⟨d, hd, rfl⟩ := h
    have hlt : d < 10 := Nat.digits_lt_base (by norm_num) hd
    interval_cases d <;> decide

theorem itoa_injective : Function.Injective itoa := by
  intro a b h
  cases a with
  | ofNat x =>
    cases b with
    | ofNat y =>
      replace h : (itoa _).data = (itoa _).data := congrArg String.data h; simp only [itoa] at h
      rw [natDigits_injective x y h]
    | negSucc y =>
      replace h : (itoa _).data = (itoa _).data := congrArg String.data h; simp only [itoa] at h
      exact absurd rfl (mem_natDigits_ne_minus x '-' (by rw [h]; exact List.mem_cons_self _ _))
  | negSucc x =>
    cases b with
    | ofNat y =>
      replace h : (itoa _).data = (itoa _).data := congrArg String.data h; simp only [itoa] at h
      exact absurd rfl (mem_natDigits_ne_minus y '-' (by rw [← h]; exact List.mem_cons_self _ _))
    | negSucc y =>
      replace h : (itoa _).data = (itoa _).data := congrArg String.data h; simp only [itoa, List.cons.injEq, true_and] at h
      have := natDigits_injective _ _ h
      simp only [add_left_inj] at this
      rw [this]

/-! ## Lemmas on the gauge and counter vectors -/

theorem gaugeSet_metrics (c : JvmGcCollector) (key : String) (l : Labels) (x : ℚ) (n : String)
    (k : Labels) :
    (c.gaugeSet key l x).metrics n k =
      if n = key ∧ k = l then some x else c.metrics n k := by
  unfold JvmGcCollector.gaugeSet MetricVec.set
  by_cases hn : n = key <;> by_cases hk : k = l <;> simp [hn, hk]

theorem setGauges_counters (c : JvmGcCollector) (l : Labels) (m : gcMetrics) :
    (setGauges c l m).counters = c.counters := rfl

theorem setGauges_lastMetrics (c : JvmGcCollector) (l : Labels) (m : gcMetrics) :
    (setGauges c l m).lastMetrics = c.lastMetrics := rfl

theorem setGauges_lastPids (c : JvmGcCollector) (l : Labels) (m : gcMetrics) :
    (setGauges c l m).lastPids = c.lastPids := rfl

theorem setGauges_metrics_of_ne (c : JvmGcCollector) (l : Labels) (m : gcMetrics) (n : String)
    (k : Labels) (h : k ≠ l) : (setGauges c l m).metrics n k = c.metrics n k := by
  simp [setGauges, gaugeSet_metrics, h]

theorem setGauges_values (c : JvmGcCollector) (l : Labels) (m : gcMetrics) :
    (setGauges c l m).metrics "s0_capacity" l = some m.s0c ∧
    (setGauges c l m).metrics "s1_capacity" l = some m.s1c ∧
    (setGauges c l m).metrics "s0_usage" l = some m.s0u ∧
    (setGauges c l m).metrics "s1_usage" l = some m.s1u ∧
    (setGauges c l m).metrics "eden_capacity" l = some m.ec ∧
    (setGauges c l m).metrics "eden_usage" l = some m.eu ∧
    (setGauges c l m).metrics "old_capacity" l = some m.oc ∧
    (setGauges c l m).metrics "old_usage" l = some m.ou ∧
    (setGauges c l m).metrics "meta_capacity" l = some m.mc ∧
    (setGauges c l m).metrics "meta_usage" l = some m.mu ∧
    (setGauges c l m).metrics "class_capacity" l = some m.ccsc ∧
    (setGauges c l m).metrics "class_usage" l = some m.ccsu := by
  simp [setGauges, gaugeSet_metrics]

theorem counterAdd_of_nonneg (c : JvmGcCollector) (key : String) (l : Labels) (x : ℚ)
    (h : 0 ≤ x) :
    ∃ c2, c.counterAdd key l x = some c2 ∧ c2.metrics = c.metrics ∧
      c2.lastMetrics = c.lastMetrics ∧ c2.lastPids = c.lastPids ∧
      ∀ n k, c2.counters n k =
        if n = key ∧ k = l then some (((c.counters n k).getD CounterSeries.zero).added x)
        else c.counters n k := by
  refine ⟨{ c with counters := fun n => if n = key then (fun k => if k = l then
    some (((c.counters key k).getD CounterSeries.zero).added x) else c.counters key k)
    else c.counters n }, ?_, rfl, rfl, rfl, ?_⟩
  · simp only [JvmGcCollector.counterAdd, CounterVec.add, if_neg (not_lt.mpr h)]
  · intro n k
    by_cases hn : n = key <;> by_cases hk : k = l <;> simp [hn, hk]

theorem counterAdd_of_neg (c : JvmGcCollector) (key : String) (l : Labels) (x : ℚ)
    (h : x < 0) : c.counterAdd key l x = none := by
  simp [JvmGcCollector.counterAdd, CounterVec.add, h]

theorem addCounters_of_nonneg (c : JvmGcCollector) (l : Labels) (d : gcMetrics)
    (h1 : 0 ≤ d.ygc) (h2 : 0 ≤ d.ygct) (h3 : 0 ≤ d.fgc) (h4 : 0 ≤ d.fgct) (h5 : 0 ≤ d.gct) :
    ∃ c2, addCounters c l d = some c2 ∧ c2.metrics = c.metrics ∧
      c2.lastMetrics = c.lastMetrics ∧ c2.lastPids = c.lastPids ∧
      (∀ n k, k ≠ l → c2.counters n k = c.counters n k) ∧
      c2.counters "young_gc_count" l =
        some (((c.counters "young_gc_count" l).getD CounterSeries.zero).added d.ygc) ∧
      c2.counters "young_gc_time" l =
        some (((c.counters "young_gc_time" l).getD CounterSeries.zero).added d.ygct) ∧
      c2.counters "full_gc_count" l =
        some (((c.counters "full_gc_count" l).getD CounterSeries.zero).added d.fgc) ∧
      c2.counters "full_gc_time" l =
        some (((c.counters "full_gc_time" l).getD CounterSeries.zero).added d.fgct) ∧
      c2.counters "total_gc_time" l =
        some (((c.counters "total_gc_time" l).getD CounterSeries.zero).added d.gct) := by
  obtain ⟨a1, e1, m1, s1, p1, v1⟩ := counterAdd_of_nonneg c "young_gc_count" l d.ygc h1
  obtain ⟨a2, e2, m2, s2, p2, v2⟩ := counterAdd_of_nonneg a1 "young_gc_time" l d.ygct h2
  obtain ⟨a3, e3, m3, s3, p3, v3⟩ := counterAdd_of_nonneg a2 "full_gc_count" l d.fgc h3
  obtain ⟨a4, e4, m4, s4, p4, v4⟩ := counterAdd_of_nonneg a3 "full_gc_time" l d.fgct h4
  obtain ⟨a5, e5, m5, s5, p5, v5⟩ := counterAdd_of_nonneg a4 "total_gc_time" l d.gct h5
  refine ⟨a5, ?_, ?_, ?_, ?_, ?_, ?_⟩
  · simp only [addCounters, e1, e2, e3, e4, e5, Option.bind_eq_bind, Option.some_bind]
  · rw [m5, m4, m3, m2, m1]
  · rw [s5, s4, s3, s2, s1]
  · rw [p5, p4, p3, p2, p1]
  · intro n k hk
    simp [v5, v4, v3, v2, v1, hk]
  · simp [v5, v4, v3, v2, v1]

theorem addCounters_of_neg (c : JvmGcCollector) (l : Labels) (d : gcMetrics)
    (h : d.ygc < 0 ∨ d.ygct < 0 ∨ d.fgc < 0 ∨ d.fgct < 0 ∨ d.gct < 0) :
    addCounters c l d = none := by
  unfold addCounters
  simp only [Option.bind_eq_bind]
  by_cases h1 : d.ygc < 0
  · rw [counterAdd_of_neg _ _ _ _ h1]; rfl
  obtain ⟨a1, e1, -⟩ := counterAdd_of_nonneg c "young_gc_count" l d.ygc (not_lt.mp h1)
  rw [e1, Option.some_bind]
  by_cases h2 : d.ygct < 0
  · rw [counterAdd_of_neg _ _ _ _ h2]; rfl
  obtain ⟨a2, e2, -⟩ := counterAdd_of_nonneg a1 "young_gc_time" l d.ygct (not_lt.mp h2)
  rw [e2, Option.some_bind]
  by_cases h3 : d.fgc < 0
  · rw [counterAdd_of_neg _ _ _ _ h3]; rfl
  obtain ⟨a3, e3, -⟩ := counterAdd_of_nonneg a2 "full_gc_count" l d.fgc (not_lt.mp h3)
  rw [e3, Option.some_bind]
  by_cases h4 : d.fgct < 0
  · rw [counterAdd_of_neg _ _ _ _ h4]; rfl
  obtain ⟨a4, e4, -⟩ := counterAdd_of_nonneg a3 "full_gc_time" l d.fgct (not_lt.mp h4)
  rw [e4, Option.some_bind]
  have h5 : d.gct < 0 := by tauto
  exact counterAdd_of_neg _ _ _ _ h5

/-! ## Lemmas on the state store -/

theorem load_delete_self (s : StateStore) (pid : Int) : (s.delete pid).load pid = none := by
  induction s with
  | nil => rfl
  | cons e t ih =>
    simp only [StateStore.delete, StateStore.load] at ih ⊢
    by_cases h : e.1 = pid
    · rw [List.filter_cons_of_neg (by simp [h])]
      exact ih
    · rw [List.filter_cons_of_pos (by simp [h]), List.find?_cons_of_neg _ (by simp [h])]
      exact ih

theorem load_delete_of_ne (s : StateStore) (pid q : Int) (hq : q ≠ pid) :
    (s.delete pid).load q = s.load q := by
  induction s with
  | nil => rfl
  | cons e t ih =>
    simp only [StateStore.delete, StateStore.load] at ih ⊢
    by_cases h : e.1 = pid
    · have hne : e.1 ≠ q := fun he => hq (he ▸ h)
      rw [List.filter_cons_of_neg (by simp [h]), List.find?_cons_of_neg _ (by simp [hne])]
      exact ih
    · rw [List.filter_cons_of_pos (by simp [h])]
      by_cases h2 : e.1 = q
      · rw [List.find?_cons_of_pos _ (by simp [h2]), List.find?_cons_of_pos _ (by simp [h2])]
      · rw [List.find?_cons_of_neg _ (by simp [h2]), List.find?_cons_of_neg _ (by simp [h2])]
        exact ih

theorem load_store_self (s : StateStore) (pid : Int) (m : gcMetrics) :
    (s.store pid m).load pid = some m := by
  simp [StateStore.store, StateStore.load]

theorem load_store_of_ne (s : StateStore) (pid q : Int) (m : gcMetrics) (hq : q ≠ pid) :
    (s.store pid m).load q = s.load q := by
  have := load_delete_of_ne s pid q hq
  simpa [StateStore.store, StateStore.load, List.find?_cons, Ne.symm hq] using this

theorem mem_keys_delete (s : StateStore) (pid k : Int) :
    k ∈ (s.delete pid).keys ↔ k ∈ s.keys ∧ k ≠ pid := by
  simp only [StateStore.keys, StateStore.delete, List.mem_map, List.mem_filter]
  constructor
  · rintro ⟨e, ⟨he, hne⟩, rfl⟩
    exact ⟨⟨e, he, rfl⟩, by simpa using hne⟩
  · rintro ⟨⟨e, he, rfl⟩, hne⟩
    exact ⟨e, ⟨he, by simpa using hne⟩, rfl⟩

theorem mem_keys_store (s : StateStore) (pid k : Int) (m : gcMetrics) :
    k ∈ (s.store pid m).keys ↔ k = pid ∨ k ∈ s.keys := by
  have h := mem_keys_delete s pid k
  simp only [StateStore.keys] at h
  simp only [StateStore.store, StateStore.keys, List.map_cons, List.mem_cons, h]
  by_cases hk : k = pid <;> simp [hk]

theorem load_eq_none_iff (s : StateStore) (pid : Int) : s.load pid = none ↔ pid ∉ s.keys := by
  induction s with
  | nil => simp [StateStore.load, StateStore.keys]
  | cons e t ih =>
    by_cases h : e.1 = pid
    · simp [StateStore.load, StateStore.keys, List.find?_cons, h]
    · have h2 : pid ≠ e.1 := fun x => h x.symm
      simpa [StateStore.load, StateStore.keys, List.find?_cons, h, h2] using ih

/-! ## Lemmas on `updateMetrics` -/

theorem updateMetrics_of_load_none (c : JvmGcCollector) (pid : Int) (app : String)
    (m : gcMetrics) (h : c.lastMetrics.load pid = none) :
    updateMetrics c pid app m =
      some { setGauges c ⟨itoa pid, app⟩ m with lastMetrics := c.lastMetrics.store pid m } := by
  simp only [updateMetrics, setGauges_lastMetrics, h]

theorem updateMetrics_of_load_some (c : JvmGcCollector) (pid : Int) (app : String)
    (m last : gcMetrics) (h : c.lastMetrics.load pid = some last) :
    updateMetrics c pid app m =
      (addCounters (setGauges c ⟨itoa pid, app⟩ m) ⟨itoa pid, app⟩ (delta m last)).map
        (fun c2 => { c2 with lastMetrics := c2.lastMetrics.store pid m }) := by
  simp only [updateMetrics, setGauges_lastMetrics, h]
  cases addCounters (setGauges c ⟨itoa pid, app⟩ m) ⟨itoa pid, app⟩ (delta m last) <;> rfl

theorem delta_nonneg (m last : gcMetrics) (hle : countersLe last m) :
    0 ≤ (delta m last).ygc ∧ 0 ≤ (delta m last).ygct ∧ 0 ≤ (delta m last).fgc ∧
    0 ≤ (delta m last).fgct ∧ 0 ≤ (delta m last).gct := by
  obtain ⟨h1, h2, h3, h4, h5⟩ := hle
  exact ⟨roundFloat64_nonneg _ (sub_nonneg.mpr h1), roundFloat64_nonneg _ (sub_nonneg.mpr h2),
    roundFloat64_nonneg _ (sub_nonneg.mpr h3), roundFloat64_nonneg _ (sub_nonneg.mpr h4),
    roundFloat64_nonneg _ (sub_nonneg.mpr h5)⟩

theorem delta_neg (m last : gcMetrics)
    (hreg : m.ygc < last.ygc ∨ m.ygct < last.ygct ∨ m.fgc < last.fgc ∨ m.fgct < last.fgct ∨
      m.gct < last.gct) :
    (delta m last).ygc < 0 ∨ (delta m last).ygct < 0 ∨ (delta m last).fgc < 0 ∨
    (delta m last).fgct < 0 ∨ (delta m last).gct < 0 := by
  rcases hreg with h | h | h | h | h
  · exact Or.inl (roundFloat64_neg_of_neg _ (sub_neg.mpr h))
  · exact Or.inr (Or.inl (roundFloat64_neg_of_neg _ (sub_neg.mpr h)))
  · exact Or.inr (Or.inr (Or.inl (roundFloat64_neg_of_neg _ (sub_neg.mpr h))))
  · exact Or.inr (Or.inr (Or.inr (Or.inl (roundFloat64_neg_of_neg _ (sub_neg.mpr h)))))
  · exact Or.inr (Or.inr (Or.inr (Or.inr (roundFloat64_neg_of_neg _ (sub_neg.mpr h)))))

theorem updateMetrics_with_baseline (c : JvmGcCollector) (pid : Int) (app : String)
    (m last : gcMetrics) (hlast : c.lastMetrics.load pid = some last) (hle : countersLe last m) :
    ∃ c2, updateMetrics c pid app m = some c2 ∧
      c2.lastMetrics = c.lastMetrics.store pid m ∧
      c2.metrics = (setGauges c ⟨itoa pid, app⟩ m).metrics ∧
      (∀ n k, k ≠ ⟨itoa pid, app⟩ → c2.counters n k = c.counters n k) ∧
      c2.counters "young_gc_count" ⟨itoa pid, app⟩ =
        some (((c.counters "young_gc_count" ⟨itoa pid, app⟩).getD CounterSeries.zero).added
          (roundFloat64 (m.ygc - last.ygc))) ∧
      c2.counters "young_gc_time" ⟨itoa pid, app⟩ =
        some (((c.counters "young_gc_time" ⟨itoa pid, app⟩).getD CounterSeries.zero).added
          (roundFloat64 (m.ygct - last.ygct))) ∧
      c2.counters "full_gc_count" ⟨itoa pid, app⟩ =
        some (((c.counters "full_gc_count" ⟨itoa pid, app⟩).getD CounterSeries.zero).added
          (roundFloat64 (m.fgc - last.fgc))) ∧
      c2.counters "full_gc_time" ⟨itoa pid, app⟩ =
        some (((c.counters "full_gc_time" ⟨itoa pid, app⟩).getD CounterSeries.zero).added
          (roundFloat64 (m.fgct - last.fgct))) ∧
      c2.counters "total_gc_time" ⟨itoa pid, app⟩ =
        some (((c.counters "total_gc_time" ⟨itoa pid, app⟩).getD CounterSeries.zero).added
          (roundFloat64 (m.gct - last.gct))) := by
  obtain ⟨h1, h2, h3, h4, h5⟩ := delta_nonneg m last hle
  obtain ⟨a, ea, ma, sa, _, va, w1, w2, w3, w4, w5⟩ :=
    addCounters_of_nonneg (setGauges c ⟨itoa pid, app⟩ m) ⟨itoa pid, app⟩ (delta m last)
      h1 h2 h3 h4 h5
  refine ⟨{ a with lastMetrics := a.lastMetrics.store pid m }, ?_, ?_, ma, va, w1, w2, w3, w4, w5⟩
  · rw [updateMetrics_of_load_some c pid app m last hlast, ea]; rfl
  · show a.lastMetrics.store pid m = _
    rw [sa]; rfl

theorem updateMetrics_of_regression (c : JvmGcCollector) (pid : Int) (app : String)
    (m last : gcMetrics) (hlast : c.lastMetrics.load pid = some last)
    (hreg : m.ygc < last.ygc ∨ m.ygct < last.ygct ∨ m.fgc < last.fgc ∨ m.fgct < last.fgct ∨
      m.gct < last.gct) :
    updateMetrics c pid app m = none := by
  rw [updateMetrics_of_load_some c pid app m last hlast,
    addCounters_of_neg _ _ _ (delta_neg m last hreg)]
  rfl

/-! ## Lemmas on eviction -/

theorem foldl_removeMetrics_lastMetrics_load (l : List Int) (c : JvmGcCollector) (q : Int) :
    (l.foldl removeMetrics c).lastMetrics.load q =
      if q ∈ l then none else c.lastMetrics.load q := by
  induction l generalizing c with
  | nil => simp
  | cons p t ih =>
    rw [List.foldl_cons, ih]
    by_cases hq : q = p
    · subst hq
      simp [removeMetrics, load_delete_self]
    · by_cases hqt : q ∈ t
      · simp [hqt]
      · simp [hqt, hq, removeMetrics, load_delete_of_ne _ _ _ hq]

theorem foldl_removeMetrics_keys (l : List Int) (c : JvmGcCollector) (k : Int) :
    k ∈ (l.foldl removeMetrics c).lastMetrics.keys ↔ k ∈ c.lastMetrics.keys ∧ k ∉ l := by
  induction l generalizing c with
  | nil => simp
  | cons p t ih =>
    rw [List.foldl_cons, ih]
    simp only [removeMetrics, mem_keys_delete, List.mem_cons, not_or]
    tauto

theorem foldl_removeMetrics_metrics (l : List Int) (c : JvmGcCollector) (n : String)
    (k : Labels) :
    (l.foldl removeMetrics c).metrics n k =
      if n ∈ gaugeKeys ∧ ∃ p ∈ l, k.pid = itoa p then none else c.metrics n k := by
  induction l generalizing c with
  | nil => simp
  | cons p t ih =>
    rw [List.foldl_cons, ih]
    by_cases hn : n ∈ gaugeKeys
    · by_cases ht : ∃ p ∈ t, k.pid = itoa p
      · obtain ⟨p2, hp2, e⟩ := ht
        rw [if_pos ⟨hn, p2, hp2, e⟩, if_pos ⟨hn, p2, List.mem_cons_of_mem _ hp2, e⟩]
      · by_cases hp : k.pid = itoa p
        · rw [if_neg (fun h => ht h.2), if_pos ⟨hn, p, List.mem_cons_self _ _, hp⟩]
          simp [removeMetrics, MetricVec.deletePartialMatch, hn, hp]
        · rw [if_neg (fun h => ht h.2), if_neg]
          · simp [removeMetrics, MetricVec.deletePartialMatch, hn, hp]
          · rintro ⟨-, p2, hp2, e⟩
            rcases List.mem_cons.mp hp2 with rfl | h3
            · exact hp e
            · exact ht ⟨p2, h3, e⟩
    · rw [if_neg (fun h => hn h.1), if_neg (fun h => hn h.1)]
      simp [removeMetrics, hn]

theorem foldl_removeMetrics_counters (l : List Int) (c : JvmGcCollector) (n : String)
    (k : Labels) :
    (l.foldl removeMetrics c).counters n k =
      if n ∈ counterKeys ∧ ∃ p ∈ l, k.pid = itoa p then none else c.counters n k := by
  induction l generalizing c with
  | nil => simp
  | cons p t ih =>
    rw [List.foldl_cons, ih]
    by_cases hn : n ∈ counterKeys
    · by_cases ht : ∃ p ∈ t, k.pid = itoa p
      · obtain ⟨p2, hp2, e⟩ := ht
        rw [if_pos ⟨hn, p2, hp2, e⟩, if_pos ⟨hn, p2, List.mem_cons_of_mem _ hp2, e⟩]
      · by_cases hp : k.pid = itoa p
        · rw [if_neg (fun h => ht h.2), if_pos ⟨hn, p, List.mem_cons_self _ _, hp⟩]
          simp [removeMetrics, CounterVec.deletePartialMatch, hn, hp]
        · rw [if_neg (fun h => ht h.2), if_neg]
          · simp [removeMetrics, CounterVec.deletePartialMatch, hn, hp]
          · rintro ⟨-, p2, hp2, e⟩
            rcases List.mem_cons.mp hp2 with rfl | h3
            · exact hp e
            · exact ht ⟨p2, h3, e⟩
    · rw [if_neg (fun h => hn h.1), if_neg (fun h => hn h.1)]
      simp [removeMetrics, hn]

theorem mem_toDelete (c : JvmGcCollector) (current : List Int) (q : Int) :
    q ∈ c.lastMetrics.keys.filter (fun pid => !(current.contains pid)) ↔
      q ∈ c.lastMetrics.keys ∧ q ∉ current := by
  simp [List.mem_filter]

theorem cleanupStaleMetrics_load (c : JvmGcCollector) (current : List Int) (q : Int) :
    (cleanupStaleMetrics c current).lastMetrics.load q =
      if q ∈ current then c.lastMetrics.load q else none := by
  unfold cleanupStaleMetrics
  simp only
  rw [foldl_removeMetrics_lastMetrics_load]
  by_cases hq : q ∈ current
  · rw [if_neg (fun h => ((mem_toDelete c current q).mp h).2 hq), if_pos hq]
  · rw [if_neg hq]
    by_cases hk : q ∈ c.lastMetrics.keys
    · rw [if_pos ((mem_toDelete c current q).mpr ⟨hk, hq⟩)]
    · rw [if_neg (fun h => hk ((mem_toDelete c current q).mp h).1)]
      exact (load_eq_none_iff _ _).mpr hk

theorem cleanupStaleMetrics_keys (c : JvmGcCollector) (current : List Int) (k : Int) :
    k ∈ (cleanupStaleMetrics c current).lastMetrics.keys ↔
      k ∈ c.lastMetrics.keys ∧ k ∈ current := by
  unfold cleanupStaleMetrics
  simp only
  rw [foldl_removeMetrics_keys, mem_toDelete]
  tauto

theorem cleanupStaleMetrics_metrics_evicted (c : JvmGcCollector) (current : List Int)
    (n : String) (k : Labels) (p : Int) (hn : n ∈ gaugeKeys) (hp : p ∈ c.lastMetrics.keys)
    (hc : p ∉ current) (hk : k.pid = itoa p) :
    (cleanupStaleMetrics c current).metrics n k = none := by
  unfold cleanupStaleMetrics
  simp only
  rw [foldl_removeMetrics_metrics, if_pos ⟨hn, p, (mem_toDelete c current p).mpr ⟨hp, hc⟩, hk⟩]

theorem cleanupStaleMetrics_counters_evicted (c : JvmGcCollector) (current : List Int)
    (n : String) (k : Labels) (p : Int) (hn : n ∈ counterKeys) (hp : p ∈ c.lastMetrics.keys)
    (hc : p ∉ current) (hk : k.pid = itoa p) :
    (cleanupStaleMetrics c current).counters n k = none := by
  unfold cleanupStaleMetrics
  simp only
  rw [foldl_removeMetrics_counters, if_pos ⟨hn, p, (mem_toDelete c current p).mpr ⟨hp, hc⟩, hk⟩]

theorem cleanupStaleMetrics_metrics_kept (c : JvmGcCollector) (current : List Int)
    (n : String) (k : Labels) (q : Int) (hq : q ∈ current) (hk : k.pid = itoa q) :
    (cleanupStaleMetrics c current).metrics n k = c.metrics n k := by
  unfold cleanupStaleMetrics
  simp only
  rw [foldl_removeMetrics_metrics, if_neg]
  rintro ⟨-, p, hp, e⟩
  have h2 := ((mem_toDelete c current p).mp hp).2
  exact h2 (itoa_injective (hk.symm.trans e) ▸ hq)

theorem cleanupStaleMetrics_counters_kept (c : JvmGcCollector) (current : List Int)
    (n : String) (k : Labels) (q : Int) (hq : q ∈ current) (hk : k.pid = itoa q) :
    (cleanupStaleMetrics c current).counters n k = c.counters n k := by
  unfold cleanupStaleMetrics
  simp only
  rw [foldl_removeMetrics_counters, if_neg]
  rintro ⟨-, p, hp, e⟩
  have h2 := ((mem_toDelete c current p).mp hp).2
  exact h2 (itoa_injective (hk.symm.trans e) ▸ hq)

/-! ## Lemmas on the collection cycle -/

theorem updateMetrics_frame (c c2 : JvmGcCollector) (pid : Int) (app : String) (m : gcMetrics)
    (h : updateMetrics c pid app m = some c2) :
    c2.lastMetrics = c.lastMetrics.store pid m ∧
    ∀ n k, k.pid ≠ itoa pid → c2.metrics n k = c.metrics n k ∧ c2.counters n k = c.counters n k := by
  have hk : ∀ k : Labels, k.pid ≠ itoa pid → k ≠ ⟨itoa pid, app⟩ := by
    intro k hk e
    exact hk (by rw [e])
  cases hl : c.lastMetrics.load pid with
  | none =>
    rw [updateMetrics_of_load_none c pid app m hl] at h
    injection h with h
    subst h
    exact ⟨rfl, fun n k hne => ⟨setGauges_metrics_of_ne c _ m n k (hk k hne), rfl⟩⟩
  | some last =>
    by_cases hle : countersLe last m
    · obtain ⟨a, ea, sa, ma, va, -⟩ := updateMetrics_with_baseline c pid app m last hl hle
      rw [ea] at h
      injection h with h
      subst h
      refine ⟨sa, fun n k hne => ⟨?_, va n k (hk k hne)⟩⟩
      rw [ma]
      exact setGauges_metrics_of_ne c _ m n k (hk k hne)
    · have hreg : m.ygc < last.ygc ∨ m.ygct < last.ygct ∨ m.fgc < last.fgc ∨
          m.fgct < last.fgct ∨ m.gct < last.gct := by
        unfold countersLe at hle
        simp only [not_and_or, not_le] at hle
        exact hle
      rw [updateMetrics_of_regression c pid app m last hl hreg] at h
      exact Option.noConfusion h

theorem scrapeTask_frame (h : Host) (c c2 : JvmGcCollector) (pid : Int)
    (e : scrapeTask h c pid = some c2) :
    (∀ k ∈ c2.lastMetrics.keys, k = pid ∨ k ∈ c.lastMetrics.keys) ∧
    (∀ q, q ≠ pid → c2.lastMetrics.load q = c.lastMetrics.load q) ∧
    ∀ n k, k.pid ≠ itoa pid → c2.metrics n k = c.metrics n k ∧ c2.counters n k = c.counters n k := by
  have hsame : c2 = c →
      (∀ k ∈ c2.lastMetrics.keys, k = pid ∨ k ∈ c.lastMetrics.keys) ∧
      (∀ q, q ≠ pid → c2.lastMetrics.load q = c.lastMetrics.load q) ∧
      ∀ n k, k.pid ≠ itoa pid →
        c2.metrics n k = c.metrics n k ∧ c2.counters n k = c.counters n k := by
    intro hc
    subst hc
    exact ⟨fun k hk => Or.inr hk, fun _ _ => rfl, fun _ _ _ => ⟨rfl, rfl⟩⟩
  unfold scrapeTask at e
  split at e
  · injection e with e
    exact hsame e.symm
  · simp only at e
    split at e
    · injection e with e
      exact hsame e.symm
    · obtain ⟨hs, hf⟩ := updateMetrics_frame _ _ _ _ _ e
      refine ⟨?_, ?_, hf⟩
      · intro k hk
        rw [hs] at hk
        exact (mem_keys_store _ _ _ _).mp hk
      · intro q hq
        rw [hs]
        exact load_store_of_ne _ _ _ _ hq

theorem runTasks_frame (h : Host) (l : List Int) :
    ∀ (c c2 : JvmGcCollector), runTasks h c l = some c2 →
      (∀ k ∈ c2.lastMetrics.keys, k ∈ l ∨ k ∈ c.lastMetrics.keys) ∧
      (∀ q, q ∉ l → c2.lastMetrics.load q = c.lastMetrics.load q) ∧
      ∀ n k, (∀ q ∈ l, k.pid ≠ itoa q) →
        c2.metrics n k = c.metrics n k ∧ c2.counters n k = c.counters n k := by
  induction l with
  | nil =>
    intro c c2 e
    simp only [runTasks, Option.some.injEq] at e
    subst e
    exact ⟨fun k hk => Or.inr hk, fun _ _ => rfl, fun _ _ _ => ⟨rfl, rfl⟩⟩
  | cons p t ih =>
    intro c c2 e
    rw [runTasks] at e
    split at e
    · obtain ⟨h1, h2, h3⟩ := ih c c2 e
      refine ⟨?_, ?_, ?_⟩
      · intro k hk
        rcases h1 k hk with hh | hh
        · exact Or.inl (List.mem_cons_of_mem _ hh)
        · exact Or.inr hh
      · intro q hq
        exact h2 q (fun hh => hq (List.mem_cons_of_mem _ hh))
      · intro n k hk
        exact h3 n k (fun q hq => hk q (List.mem_cons_of_mem _ hq))
    · split at e
      · exact Option.noConfusion e
      · rename_i c1 e1
        obtain ⟨g1, g2, g3⟩ := scrapeTask_frame h c c1 p e1
        obtain ⟨h1, h2, h3⟩ := ih c1 c2 e
        refine ⟨?_, ?_, ?_⟩
        · intro k hk
          rcases h1 k hk with hh | hh
          · exact Or.inl (List.mem_cons_of_mem _ hh)
          · rcases g1 k hh with hh2 | hh2
            · exact Or.inl (hh2 ▸ List.mem_cons_self _ _)
            · exact Or.inr hh2
        · intro q hq
          rw [h2 q (fun hh => hq (List.mem_cons_of_mem _ hh))]
          exact g2 q (fun hh => hq (hh ▸ List.mem_cons_self _ _))
        · intro n k hk
          have a1 := h3 n k (fun q hq => hk q (List.mem_cons_of_mem _ hq))
          have a2 := g3 n k (hk p (List.mem_cons_self _ _))
          exact ⟨a1.1.trans a2.1, a1.2.trans a2.2⟩

theorem countersLe_refl (m : gcMetrics) : countersLe m m :=
  ⟨le_refl _, le_refl _, le_refl _, le_refl _, le_refl _⟩

theorem scrapeTask_total (h : Host) (c : JvmGcCollector) (pid : Int)
    (hle : ∀ m last, scrapeJstat h.parseFloat (h.jstat pid) = Except.ok m →
      c.lastMetrics.load pid = some last → countersLe last m) :
    ∃ c2, scrapeTask h c pid = some c2 ∧
      (c2 = c ∨ ∃ m, scrapeJstat h.parseFloat (h.jstat pid) = Except.ok m ∧
        c2.lastMetrics.load pid = some m) := by
  unfold scrapeTask
  split
  · exact ⟨c, rfl, Or.inl rfl⟩
  · simp only
    split
    · exact ⟨c, rfl, Or.inl rfl⟩
    · rename_i m hm
      cases hl : c.lastMetrics.load pid with
      | none =>
        refine ⟨_, updateMetrics_of_load_none c pid _ m hl, Or.inr ⟨m, hm, ?_⟩⟩
        exact load_store_self _ _ _
      | some last =>
        obtain ⟨a, ea, sa, -⟩ :=
          updateMetrics_with_baseline c pid (h.getAppName pid) m last hl (hle m last hm hl)
        refine ⟨a, ea, Or.inr ⟨m, hm, ?_⟩⟩
        rw [sa]
        exact load_store_self _ _ _

theorem runTasks_total (h : Host) (l : List Int) :
    ∀ (c : JvmGcCollector),
      (∀ pid ∈ l, ∀ m last, scrapeJstat h.parseFloat (h.jstat pid) = Except.ok m →
        c.lastMetrics.load pid = some last → countersLe last m) →
      ∃ c2, runTasks h c l = some c2 := by
  induction l with
  | nil => intro c _; exact ⟨c, rfl⟩
  | cons p t ih =>
    intro c hc
    rw [runTasks]
    split
    · exact ih c (fun pid hp => hc pid (List.mem_cons_of_mem _ hp))
    · obtain ⟨c1, e1, hc1⟩ := scrapeTask_total h c p (hc p (List.mem_cons_self _ _))
      rw [e1]
      simp only
      apply ih c1
      intro pid hp m last hm hl
      by_cases hpp : pid = p
      · subst hpp
        rcases hc1 with rfl | ⟨m2, hm2, hl2⟩
        · exact hc pid (List.mem_cons_self _ _) m last hm hl
        · rw [hm] at hm2
          injection hm2 with hm2
          subst hm2
          rw [hl] at hl2
          injection hl2 with hl2
          subst hl2
          exact countersLe_refl _
      · have := (scrapeTask_frame h c c1 p e1).2.1 pid hpp
        rw [this] at hl
        exact hc pid (List.mem_cons_of_mem _ hp) m last hm hl

theorem mem_sorted_alive (h : Host) (pids : List Int) (k : Int) :
    k ∈ (filterAlivePids h pids).insertionSort (fun a b => a ≤ b) ↔ k ∈ filterAlivePids h pids :=
  (List.perm_insertionSort _ _).mem_iff

/-! ## Lemmas on the parsing of the sampler output -/

theorem buildData_append (pf : String → ℚ × Bool) (l : List (String × String))
    (init : String → ℚ) (h v : String) (k : String) :
    ((l ++ [(h, v)]).foldl (fun data hv => fun k => if k = hv.1 then (pf hv.2).1 else data k)
      init) k =
      if k = h then (pf v).1
      else (l.foldl (fun data hv => fun k => if k = hv.1 then (pf hv.2).1 else data k) init) k := by
  rw [List.foldl_append]
  rfl

/-- The value the loop leaves under a header: the one of its last occurrence. -/
theorem foldl_data_lookup (pf : String → ℚ × Bool) (l : List (String × String)) :
    ∀ (init : String → ℚ) (i : Nat) (h v : String), l[i]? = some (h, v) →
      (∀ j, i < j → ∀ w, l[j]? ≠ some (h, w)) →
      (l.foldl (fun data hv => fun k => if k = hv.1 then (pf hv.2).1 else data k) init) h
        = (pf v).1 := by
  induction l using List.reverseRecOn with
  | nil => intro init i h v hi; simp at hi
  | append_singleton t e ih =>
    intro init i h v hi hlast
    obtain ⟨eh, ev⟩ := e
    rw [buildData_append]
    by_cases hlt : i < t.length
    · have hne : h ≠ eh := by
        intro heq
        apply hlast t.length hlt ev
        rw [heq]
        simp
      rw [if_neg hne]
      apply ih init i h v
      · rw [List.getElem?_append_left hlt] at hi
        exact hi
      · intro j hj w hw
        by_cases hjt : j < t.length
        · exact hlast j hj w (by rw [List.getElem?_append_left hjt]; exact hw)
        · rw [List.getElem?_eq_none (not_lt.mp hjt)] at hw
          exact Option.noConfusion hw
    · have hi2 : i = t.length := by
        by_contra hne
        have : t.length + 1 ≤ i := by omega
        rw [List.getElem?_eq_none (by simpa using this)] at hi
        exact Option.noConfusion hi
      subst hi2
      simp at hi
      rw [hi.1, hi.2]
      simp

theorem buildData_lookup (pf : String → ℚ × Bool) (headers values : List String)
    (i : Nat) (h v : String)
    (hh : headers[i]? = some h) (hv : values[i]? = some v)
    (hlast : ∀ j, i < j → headers[j]? ≠ some h) :
    buildData pf headers values h = (pf v).1 := by
  unfold buildData
  apply foldl_data_lookup pf (headers.zip values) (fun _ => 0) i h v
  · rw [List.getElem?_zip_eq_some]
    exact ⟨hh, hv⟩
  · intro j hj w hw
    rw [List.getElem?_zip_eq_some] at hw
    exact hlast j hj hw.1

theorem buildData_absent (pf : String → ℚ × Bool) (headers values : List String) (h : String)
    (habs : h ∉ headers) : buildData pf headers values h = 0 := by
  unfold buildData
  have : ∀ (l : List (String × String)) (init : String → ℚ), (∀ e ∈ l, e.1 ≠ h) →
      (l.foldl (fun data hv => fun k => if k = hv.1 then (pf hv.2).1 else data k) init) h
        = init h := by
    intro l
    induction l with
    | nil => intro init _; rfl
    | cons e t ih =>
      intro init hne
      rw [List.foldl_cons, ih _ (fun e2 he2 => hne e2 (List.mem_cons_of_mem _ he2))]
      simp [Ne.symm (hne e (List.mem_cons_self _ _))]
  apply this
  intro e he heq
  exact habs (heq ▸ (List.of_mem_zip he).1)

theorem parseOutput_of_split (pf : String → ℚ × Bool) (out l0 l1 : String) (rest : List String)
    (hs : Split out '\n' = l0 :: l1 :: rest) (hlen : (Fields l0).length = (Fields l1).length) :
    parseOutput pf out = Except.ok
      { s0c := buildData pf (Fields l0) (Fields l1) "S0C" * 1024
        s1c := buildData pf (Fields l0) (Fields l1) "S1C" * 1024
        s0u := buildData pf (Fields l0) (Fields l1) "S0U" * 1024
        s1u := buildData pf (Fields l0) (Fields l1) "S1U" * 1024
        ec := buildData pf (Fields l0) (Fields l1) "EC" * 1024
        eu := buildData pf (Fields l0) (Fields l1) "EU" * 1024
        oc := buildData pf (Fields l0) (Fields l1) "OC" * 1024
        ou := buildData pf (Fields l0) (Fields l1) "OU" * 1024
        mc := buildData pf (Fields l0) (Fields l1) "MC" * 1024
        mu := buildData pf (Fields l0) (Fields l1) "MU" * 1024
        ccsc := buildData pf (Fields l0) (Fields l1) "CCSC" * 1024
        ccsu := buildData pf (Fields l0) (Fields l1) "CCSU" * 1024
        ygc := buildData pf (Fields l0) (Fields l1) "YGC"
        fgc := buildData pf (Fields l0) (Fields l1) "FGC"
        ygct := buildData pf (Fields l0) (Fields l1) "YGCT"
        fgct := buildData pf (Fields l0) (Fields l1) "FGCT"
        gct := buildData pf (Fields l0) (Fields l1) "GCT" } := by
  simp only [parseOutput, hs, hlen, ne_eq, not_true_eq_false, if_false]

theorem parseOutput_field_values (pf : String → ℚ × Bool) (out l0 l1 : String)
    (rest : List String) (hs : Split out '\n' = l0 :: l1 :: rest)
    (hlen : (Fields l0).length = (Fields l1).length) :
    ∃ m, parseOutput pf out = Except.ok m ∧
      ∀ (i : Nat) (h v : String), (Fields l0)[i]? = some h → (Fields l1)[i]? = some v →
      (∀ j, i < j → (Fields l0)[j]? ≠ some h) →
      (h = "S0C" → m.s0c = (pf v).1 * 1024) ∧
      (h = "S1C" → m.s1c = (pf v).1 * 1024) ∧
      (h = "S0U" → m.s0u = (pf v).1 * 1024) ∧
      (h = "S1U" → m.s1u = (pf v).1 * 1024) ∧
      (h = "EC" → m.ec = (pf v).1 * 1024) ∧
      (h = "EU" → m.eu = (pf v).1 * 1024) ∧
      (h = "OC" → m.oc = (pf v).1 * 1024) ∧
      (h = "OU" → m.ou = (pf v).1 * 1024) ∧
      (h = "MC" → m.mc = (pf v).1 * 1024) ∧
      (h = "MU" → m.mu = (pf v).1 * 1024) ∧
      (h = "CCSC" → m.ccsc = (pf v).1 * 1024) ∧
      (h = "CCSU" → m.ccsu = (pf v).1 * 1024) ∧
      (h = "YGC" → m.ygc = (pf v).1) ∧
      (h = "YGCT" → m.ygct = (pf v).1) ∧
      (h = "FGC" → m.fgc = (pf v).1) ∧
      (h = "FGCT" → m.fgct = (pf v).1) ∧
      (h = "GCT" → m.gct = (pf v).1) := by
  refine ⟨_, parseOutput_of_split pf out l0 l1 rest hs hlen, ?_⟩
  intro i h v hh hv hlast
  have key := buildData_lookup pf (Fields l0) (Fields l1) i h v hh hv hlast
  refine ⟨?_, ?_, ?_, ?_, ?_, ?_, ?_, ?_, ?_, ?_, ?_, ?_, ?_, ?_, ?_, ?_, ?_⟩ <;>
  · intro hname
    subst hname
    simp only [key]

theorem splitChars_ne_nil (sep : Char) (cs : List Char) : splitChars sep cs ≠ [] := by
  cases cs with
  | nil => simp [splitChars]
  | cons c t =>
    rw [splitChars]
    split
    · simp
    · split <;> simp

theorem splitChars_eq (sep : Char) (cs : List Char) :
    splitChars sep cs =
      cs.takeWhile (fun c => c != sep) ::
        (if sep ∈ cs then splitChars sep ((cs.dropWhile (fun c => c != sep)).drop 1) else []) := by
  induction cs with
  | nil => simp [splitChars]
  | cons c t ih =>
    rw [splitChars]
    by_cases hc : c = sep
    · subst hc
      simp
    · rw [if_neg hc, ih]
      have hmem : (sep ∈ c :: t) ↔ sep ∈ t := by
        simp [List.mem_cons, Ne.symm hc]
      have hb : (c != sep) = true := by simpa using hc
      simp only [List.takeWhile_cons, List.dropWhile_cons, hb, if_true]
      by_cases hm : sep ∈ t
      · rw [if_pos hm, if_pos (hmem.mpr hm)]
      · rw [if_neg hm, if_neg (fun x => hm (hmem.mp x))]

theorem Split_length_lt_two_iff (out : String) :
    (Split out '\n').length < 2 ↔ '\n' ∉ out.data := by
  unfold Split
  rw [List.length_map, splitChars_eq]
  by_cases hm : '\n' ∈ out.data
  · rw [if_pos hm]
    have := splitChars_ne_nil '\n' ((out.data.dropWhile (fun c => c != '\n')).drop 1)
    have hpos := List.length_pos.mpr this
    simp only [List.length_cons]
    constructor
    · intro h; omega
    · intro h; exact absurd hm h
  · rw [if_neg hm]
    simp [hm]

/-! ## Lemmas on the admission gate -/

theorem countP_set_phase (ph : TaskPhase) (l : List (Int × TaskPhase)) :
    ∀ (i : Nat) (old new : Int × TaskPhase), l[i]? = some old →
      (l.set i new).countP (fun t => decide (t.2 = ph)) + (if old.2 = ph then 1 else 0) =
        l.countP (fun t => decide (t.2 = ph)) + (if new.2 = ph then 1 else 0) := by
  induction l with
  | nil => intro i old new h; simp at h
  | cons a t ih =>
    intro i old new h
    cases i with
    | zero =>
      simp only [List.getElem?_cons_zero, Option.some.injEq] at h
      subst h
      simp only [List.set_cons_zero, List.countP_cons, decide_eq_true_eq]
      omega
    | succ j =>
      simp only [List.getElem?_cons_succ] at h
      have := ih j old new h
      simp only [List.set_cons_succ, List.countP_cons, decide_eq_true_eq]
      omega

theorem FanOut.inv_init (cap : Nat) (pids : List Int) : (FanOut.init cap pids).Inv := by
  simp [FanOut.Inv, FanOut.init, FanOut.count]

theorem FanOut.inv_step (currentPID : Int) (s s2 : FanOut) (e : Event) (hs : s.Inv)
    (h : FanOut.step currentPID s e = some s2) : s2.Inv ∧ s2.cap = s.cap := by
  obtain ⟨h1, h2, h3, h4⟩ := hs
  cases e with
  | spawn =>
    simp only [FanOut.step] at h
    split at h
    · exact Option.noConfusion h
    · rename_i pid rest hp
      split at h
      · exact Option.noConfusion h
      · rename_i hj
        split at h
        · injection h with h
          subst h
          refine ⟨⟨h1, h2, h3, ?_⟩, rfl⟩
          intro hj2
          exact absurd hj2 hj
        · injection h with h
          subst h
          refine ⟨⟨?_, h2, ?_, ?_⟩, rfl⟩
          · simp only [FanOut.count] at h1 ⊢
            simp [h1]
          · simp only [FanOut.count] at h3 ⊢
            simp
            omega
          · intro hj2
            exact absurd hj2 hj
  | acquire i =>
    simp only [FanOut.step] at h
    split at h
    · rename_i pid ht
      split at h
      · rename_i hlt
        injection h with h
        subst h
        have c1 := countP_set_phase TaskPhase.inFlight s.tasks i _ (pid, TaskPhase.inFlight) ht
        have c2 := countP_set_phase TaskPhase.done s.tasks i _ (pid, TaskPhase.inFlight) ht
        simp only [FanOut.count] at h1 h3
        simp at c1 c2
        refine ⟨⟨?_, ?_, ?_, ?_⟩, rfl⟩
        · simp only [FanOut.count]; omega
        · show s.sem + 1 ≤ s.cap; omega
        · simp only [FanOut.count, List.length_set]; omega
        · exact h4
      · exact Option.noConfusion h
    · exact Option.noConfusion h
  | release i =>
    simp only [FanOut.step] at h
    split at h
    · rename_i pid ht
      split at h
      · rename_i hlt
        injection h with h
        subst h
        have c1 := countP_set_phase TaskPhase.inFlight s.tasks i _ (pid, TaskPhase.released) ht
        have c2 := countP_set_phase TaskPhase.done s.tasks i _ (pid, TaskPhase.released) ht
        simp only [FanOut.count] at h1 h3
        simp at c1 c2
        refine ⟨⟨?_, ?_, ?_, ?_⟩, rfl⟩
        · simp only [FanOut.count]; omega
        · show s.sem - 1 ≤ s.cap; omega
        · simp only [FanOut.count, List.length_set]; omega
        · exact h4
      · exact Option.noConfusion h
    · exact Option.noConfusion h
  | finish i =>
    simp only [FanOut.step] at h
    split at h
    · rename_i pid ht
      split at h
      · rename_i hlt
        injection h with h
        subst h
        have c1 := countP_set_phase TaskPhase.inFlight s.tasks i _ (pid, TaskPhase.done) ht
        have c2 := countP_set_phase TaskPhase.done s.tasks i _ (pid, TaskPhase.done) ht
        simp only [FanOut.count] at h1 h3
        simp at c1 c2
        refine ⟨⟨?_, h2, ?_, ?_⟩, rfl⟩
        · simp only [FanOut.count]; omega
        · simp only [FanOut.count, List.length_set]; omega
        · intro hj
          have := h4 hj
          omega
      · exact Option.noConfusion h
    · exact Option.noConfusion h
  | join =>
    simp only [FanOut.step] at h
    split at h
    · rename_i hc
      injection h with h
      subst h
      exact ⟨⟨h1, h2, h3, fun _ => ⟨hc.1, hc.2.1⟩⟩, rfl⟩
    · exact Option.noConfusion h

theorem FanOut.inv_run (currentPID : Int) (es : List Event) :
    ∀ (s s2 : FanOut), s.Inv → FanOut.run currentPID s es = some s2 →
      s2.Inv ∧ s2.cap = s.cap := by
  induction es with
  | nil =>
    intro s s2 hs h
    simp only [FanOut.run, Option.some.injEq] at h
    subst h
    exact ⟨hs, rfl⟩
  | cons e t ih =>
    intro s s2 hs h
    rw [FanOut.run] at h
    split at h
    · exact Option.noConfusion h
    · rename_i s1 h1
      obtain ⟨i1, c1⟩ := FanOut.inv_step currentPID s s1 e hs h1
      obtain ⟨i2, c2⟩ := ih s1 s2 i1 h
      exact ⟨i2, c2.trans c1⟩

/-! ## Lemmas on the counter series and on successive samples -/

theorem added_natCast (s : CounterSeries) (n : ℕ) :
    s.added (n : ℚ) = { s with valInt := s.valInt + n } := by
  simp [CounterSeries.added]

theorem added_roundFloat64_natCast (s : CounterSeries) (n : ℕ) (hn : n ≤ 2 ^ 53) :
    s.added (roundFloat64 (n : ℚ)) = { s with valInt := s.valInt + n } := by
  rw [roundFloat64_natCast n hn, added_natCast]

theorem added_of_lt_one (s : CounterSeries) (v : ℚ) (h0 : 0 < v) (h1 : v < 1) :
    s.added v = { s with valBits := roundFloat64 (s.valBits + v) } := by
  have hf : ⌊v⌋₊ = 0 := Nat.floor_eq_zero.mpr h1
  unfold CounterSeries.added
  simp only [hf, Nat.cast_zero]
  rw [if_neg (ne_of_lt h0)]

theorem get_of_valInt (n : ℕ) (hn : n ≤ 2 ^ 53) :
    CounterSeries.get { valInt := n, valBits := 0 } = n := by
  simp [CounterSeries.get, roundFloat64_natCast n hn]

theorem addAll_cons (s : CounterSeries) (v : ℚ) (l : List ℚ) :
    s.addAll (v :: l) = (s.added v).addAll l := rfl

theorem addAll_nil (s : CounterSeries) : s.addAll [] = s := rfl

/-- The increments of a counter whose values are whole numbers up to `2 ^ 53` are
added without rounding: they telescope. -/
theorem addAll_increments_of_natural (f : gcMetrics → ℚ) (rest : List gcMetrics) :
    ∀ (s1 : gcMetrics) (s0 : CounterSeries),
      (∀ s ∈ s1 :: rest, ∃ n : ℕ, n ≤ 2 ^ 53 ∧ f s = n) →
      List.Chain' (fun a b => f a ≤ f b) (s1 :: rest) →
      (s0.addAll (increments f (s1 :: rest))).valBits = s0.valBits ∧
      ((s0.addAll (increments f (s1 :: rest))).valInt : ℚ) =
        s0.valInt + (f ((s1 :: rest).getLast (List.cons_ne_nil s1 rest)) - f s1) := by
  induction rest with
  | nil =>
    intro s1 s0 _ _
    simp [increments, addAll_nil]
  | cons s2 rest ih =>
    intro s1 s0 hnat hch
    rw [List.chain'_cons] at hch
    obtain ⟨n1, hn1, e1⟩ := hnat s1 (List.mem_cons_self _ _)
    obtain ⟨n2, hn2, e2⟩ := hnat s2 (List.mem_cons_of_mem _ (List.mem_cons_self _ _))
    have hle : n1 ≤ n2 := by
      have := hch.1
      rw [e1, e2] at this
      exact_mod_cast this
    have hd : f s2 - f s1 = ((n2 - n1 : ℕ) : ℚ) := by
      rw [e1, e2, Nat.cast_sub hle]
    have hstep : s0.added (roundFloat64 (f s2 - f s1)) =
        { s0 with valInt := s0.valInt + (n2 - n1) } := by
      rw [hd]
      exact added_roundFloat64_natCast s0 (n2 - n1) (by omega)
    obtain ⟨i1, i2⟩ := ih s2 { s0 with valInt := s0.valInt + (n2 - n1) }
      (fun s hs => hnat s (List.mem_cons_of_mem _ hs)) hch.2
    rw [increments, addAll_cons, hstep, List.getLast_cons (List.cons_ne_nil s2 rest)]
    refine ⟨i1, ?_⟩
    rw [i2, e1, e2]
    push_cast [Nat.cast_sub hle]
    ring

theorem applySnapshots_cons_of_some (c c1 : JvmGcCollector) (pid : Int) (app : String)
    (s : gcMetrics) (rest : List gcMetrics) (h : updateMetrics c pid app s = some c1) :
    applySnapshots c pid app (s :: rest) = applySnapshots c1 pid app rest := by
  simp only [applySnapshots, h]

theorem applySnapshots_series (pid : Int) (app : String) (rest : List gcMetrics) :
    ∀ (c1 : JvmGcCollector) (s1 : gcMetrics), c1.lastMetrics.load pid = some s1 →
      List.Chain' countersLe (s1 :: rest) →
      ∃ c2, applySnapshots c1 pid app rest = some c2 ∧
        c2.lastMetrics.load pid = some ((s1 :: rest).getLast (List.cons_ne_nil s1 rest)) ∧
        (c2.counters "young_gc_count" ⟨itoa pid, app⟩).getD CounterSeries.zero =
          ((c1.counters "young_gc_count" ⟨itoa pid, app⟩).getD CounterSeries.zero).addAll
            (increments gcMetrics.ygc (s1 :: rest)) ∧
        (c2.counters "young_gc_time" ⟨itoa pid, app⟩).getD CounterSeries.zero =
          ((c1.counters "young_gc_time" ⟨itoa pid, app⟩).getD CounterSeries.zero).addAll
            (increments gcMetrics.ygct (s1 :: rest)) ∧
        (c2.counters "full_gc_count" ⟨itoa pid, app⟩).getD CounterSeries.zero =
          ((c1.counters "full_gc_count" ⟨itoa pid, app⟩).getD CounterSeries.zero).addAll
            (increments gcMetrics.fgc (s1 :: rest)) ∧
        (c2.counters "full_gc_time" ⟨itoa pid, app⟩).getD CounterSeries.zero =
          ((c1.counters "full_gc_time" ⟨itoa pid, app⟩).getD CounterSeries.zero).addAll
            (increments gcMetrics.fgct (s1 :: rest)) ∧
        (c2.counters "total_gc_time" ⟨itoa pid, app⟩).getD CounterSeries.zero =
          ((c1.counters "total_gc_time" ⟨itoa pid, app⟩).getD CounterSeries.zero).addAll
            (increments gcMetrics.gct (s1 :: rest)) := by
  induction rest with
  | nil =>
    intro c1 s1 h _
    exact ⟨c1, rfl, by simpa using h, rfl, rfl, rfl, rfl, rfl⟩
  | cons s2 rest ih =>
    intro c1 s1 h hch
    rw [List.chain'_cons] at hch
    obtain ⟨a, ea, sa, -, -, w1, w2, w3, w4, w5⟩ :=
      updateMetrics_with_baseline c1 pid app s2 s1 h hch.1
    have hload : a.lastMetrics.load pid = some s2 := by rw [sa]; exact load_store_self _ _ _
    obtain ⟨c2, e2, l2, v1, v2, v3, v4, v5⟩ := ih a s2 hload hch.2
    refine ⟨c2, ?_, ?_, ?_, ?_, ?_, ?_, ?_⟩
    · simp only [applySnapshots, ea]; exact e2
    · rw [List.getLast_cons (List.cons_ne_nil s2 rest)]; exact l2
    · rw [v1, w1, increments, addAll_cons]; rfl
    · rw [v2, w2, increments, addAll_cons]; rfl
    · rw [v3, w3, increments, addAll_cons]; rfl
    · rw [v4, w4, increments, addAll_cons]; rfl
    · rw [v5, w5, increments, addAll_cons]; rfl

/-! ## Lemmas on the completion of the cycle -/

theorem Collect_of_admitted (h : Host) (c : JvmGcCollector) (pids : List Int)
    (hp : h.getJavaPids = some pids) (hcap : 0 < h.maxConcurrentScrapes) :
    Collect h c =
      runTasks h (cleanupStaleMetrics c ((filterAlivePids h pids).insertionSort (fun a b => a ≤ b)))
        ((filterAlivePids h pids).insertionSort (fun a b => a ≤ b)) := by
  simp only [Collect, hp]
  rw [if_neg (not_lt.mpr (le_of_lt hcap)), if_neg]
  rintro ⟨h0, -⟩
  omega

theorem Collect_runTasks (h : Host) (c c2 : JvmGcCollector) (pids : List Int)
    (hp : h.getJavaPids = some pids) (e : Collect h c = some c2) :
    runTasks h (cleanupStaleMetrics c ((filterAlivePids h pids).insertionSort (fun a b => a ≤ b)))
        ((filterAlivePids h pids).insertionSort (fun a b => a ≤ b)) = some c2 := by
  simp only [Collect, hp] at e
  split at e
  · exact Option.noConfusion e
  · split at e
    · exact Option.noConfusion e
    · exact e

/-- With at least one slot and no sample below the stored snapshot of its pid, the
cycle of the model completes. -/
theorem Collect_completes (h : Host) (c : JvmGcCollector) (pids : List Int)
    (hp : h.getJavaPids = some pids) (hcap : 0 < h.maxConcurrentScrapes)
    (hle : ∀ pid ∈ filterAlivePids h pids, ∀ m last,
      scrapeJstat h.parseFloat (h.jstat pid) = Except.ok m →
      c.lastMetrics.load pid = some last → countersLe last m) :
    ∃ c2, Collect h c = some c2 := by
  rw [Collect_of_admitted h c pids hp hcap]
  apply runTasks_total
  intro pid hpid m last hm hl
  rw [cleanupStaleMetrics_load, if_pos hpid] at hl
  exact hle pid ((mem_sorted_alive h pids pid).mp hpid) m last hm hl

/-! ## The float64 values of the worked examples -/

theorem roundFloat64_one_plus : roundFloat64 (2476979795053773 / 2 ^ 51 - 3602879701896397 / 2 ^ 55) = 1 := by
  rw [roundFloat64_of_bounds _ (-52) (by norm_num) (by norm_num) (by norm_num),
    roundHalfEven_of_lt_half _ (2 ^ 52) (by norm_num) (by norm_num)]
  norm_num

theorem roundFloat64_time_step1 :
    roundFloat64 (1152921504606847 / 2 ^ 59 - 1152921504606847 / 2 ^ 60) =
      1152921504606847 / 2 ^ 60 := by
  have h : (1152921504606847 / 2 ^ 59 - 1152921504606847 / 2 ^ 60 : ℚ) =
      ((1152921504606847 : ℕ) : ℚ) * (2 : ℚ) ^ (-60 : ℤ) := by norm_num
  rw [roundFloat64_of_significand _ 1152921504606847 (-60) (by norm_num) (by norm_num) h]
  norm_num

theorem roundFloat64_time_step2 :
    roundFloat64 (5188146770730811 / 2 ^ 58 - 1152921504606847 / 2 ^ 59) =
      1152921504606847 / 2 ^ 56 := by
  rw [roundFloat64_of_bounds _ (-58) (by norm_num) (by norm_num) (by norm_num),
    roundHalfEven_of_eq_half_odd _ 4611686018427387 (by norm_num) (by norm_num)]
  norm_num

theorem roundFloat64_time_sum :
    roundFloat64 (1152921504606847 / 2 ^ 60 + 1152921504606847 / 2 ^ 56) =
      1224979098644775 / 2 ^ 56 := by
  rw [roundFloat64_of_bounds _ (-58) (by norm_num) (by norm_num) (by norm_num),
    roundHalfEven_of_gt_half _ 4899916394579099 (by norm_num) (by norm_num)]
  norm_num

theorem roundFloat64_time_total :
    roundFloat64 (1224979098644775 / 2 ^ 56) = 1224979098644775 / 2 ^ 56 :=
  roundFloat64_of_significand _ 1224979098644775 (-56) (by norm_num) (by norm_num) (by norm_num)

theorem roundFloat64_time_direct :
    roundFloat64 (5188146770730811 / 2 ^ 58 - 1152921504606847 / 2 ^ 60) =
      4899916394579099 / 2 ^ 58 := by
  rw [roundFloat64_of_bounds _ (-58) (by norm_num) (by norm_num) (by norm_num),
    roundHalfEven_of_lt_half _ 4899916394579099 (by norm_num) (by norm_num)]
  norm_num

theorem roundFloat64_twentieth : roundFloat64 (1 / 20) = 3602879701896397 / 2 ^ 56 := by
  rw [roundFloat64_of_bounds _ (-57) (by norm_num) (by norm_num) (by norm_num),
    roundHalfEven_of_gt_half _ 7205759403792793 (by norm_num) (by norm_num)]
  norm_num

theorem roundFloat64_fifth : roundFloat64 (1 / 5) = 3602879701896397 / 2 ^ 54 := by
  rw [roundFloat64_of_bounds _ (-55) (by norm_num) (by norm_num) (by norm_num),
    roundHalfEven_of_gt_half _ 7205759403792793 (by norm_num) (by norm_num)]
  norm_num

theorem roundFloat64_quarter : roundFloat64 (1 / 4) = 1 / 4 :=
  roundFloat64_of_significand _ 1 (-2) (by norm_num) (by norm_num) (by norm_num)

theorem increments_exampleTimes :
    increments gcMetrics.ygct exampleTimes =
      [1152921504606847 / 2 ^ 60, 1152921504606847 / 2 ^ 56] := by
  have e1 : exampleTime1.ygct = 1152921504606847 / 2 ^ 60 := rfl
  have e2 : exampleTime2.ygct = 1152921504606847 / 2 ^ 59 := rfl
  have e3 : exampleTime3.ygct = 5188146770730811 / 2 ^ 58 := rfl
  simp only [exampleTimes, increments, e1, e2, e3, roundFloat64_time_step1,
    roundFloat64_time_step2]

theorem addAll_exampleTimes :
    CounterSeries.zero.addAll [1152921504606847 / 2 ^ 60, 1152921504606847 / 2 ^ 56] =
      { valInt := 0, valBits := 1224979098644775 / 2 ^ 56 } := by
  rw [addAll_cons, added_of_lt_one _ _ (by norm_num) (by norm_num), addAll_cons,
    added_of_lt_one _ _ (by norm_num) (by norm_num), addAll_nil]
  simp only [CounterSeries.zero, zero_add, roundFloat64_time_step1]
  have h : roundFloat64 (1152921504606847 / 2 ^ 60) = 1152921504606847 / 2 ^ 60 :=
    roundFloat64_of_significand _ 1152921504606847 (-60) (by norm_num) (by norm_num)
      (by norm_num)
  rw [h, roundFloat64_time_sum]

theorem get_exampleTimes :
    CounterSeries.get { valInt := 0, valBits := 1224979098644775 / 2 ^ 56 } =
      1224979098644775 / 2 ^ 56 := by
  simp only [CounterSeries.get, Nat.cast_zero, roundFloat64_zero, add_zero, roundFloat64_time_total]

/-! ## The claims -/

/-- Claim C1 fails on the code, whose counters are float64. The pid 101 has the stored
total time 0.1 and is sampled with total time 1.1, as float64 values: the counter
`total_gc_time`, absent before, stands at 1 after the call, while the difference of the
two cumulative values is `1 + 3 / 2 ^ 55`: the counter has not grown by that
difference. -/
theorem updateMetrics_rounds_delta_counterexample :
    exampleTenthCollector.lastMetrics.load 101 = some exampleTenth ∧
    countersLe exampleTenth exampleEleven ∧
    exampleTenthCollector.counters "total_gc_time" ⟨itoa 101, "app"⟩ = none ∧
    exampleEleven.gct - exampleTenth.gct = 1 + 3 / 2 ^ 55 ∧
    ∃ c2, updateMetrics exampleTenthCollector 101 "app" exampleEleven = some c2 ∧
      c2.counters "total_gc_time" ⟨itoa 101, "app"⟩ = some { valInt := 1, valBits := 0 } ∧
      CounterSeries.get { valInt := 1, valBits := 0 } = 1 ∧
      CounterSeries.get { valInt := 1, valBits := 0 } ≠
        CounterSeries.get CounterSeries.zero + (exampleEleven.gct - exampleTenth.gct) := by
  have hle : countersLe exampleTenth exampleEleven :=
    ⟨le_refl _, le_refl _, le_refl _, le_refl _, by norm_num [exampleTenth, exampleEleven]⟩
  have hdiff : exampleEleven.gct - exampleTenth.gct = 1 + 3 / 2 ^ 55 := by
    norm_num [exampleTenth, exampleEleven]
  have hget : CounterSeries.get { valInt := 1, valBits := 0 } = 1 := by
    simpa using get_of_valInt 1 (by norm_num)
  have hzero : CounterSeries.get CounterSeries.zero = 0 := by
    simpa [CounterSeries.zero] using get_of_valInt 0 (by norm_num)
  obtain ⟨c2, e, -, -, -, -, -, -, -, w⟩ :=
    updateMetrics_with_baseline exampleTenthCollector 101 "app" exampleEleven exampleTenth rfl hle
  refine ⟨rfl, hle, rfl, hdiff, c2, e, ?_, hget, ?_⟩
  · rw [w]
    have h0 : exampleTenthCollector.counters "total_gc_time" ⟨itoa 101, "app"⟩ = none := rfl
    have hd : exampleEleven.gct - exampleTenth.gct =
        2476979795053773 / 2 ^ 51 - 3602879701896397 / 2 ^ 55 := rfl
    rw [h0, hd, roundFloat64_one_plus]
    have := added_natCast CounterSeries.zero 1
    simpa [CounterSeries.zero] using this
  · rw [hget, hzero, hdiff]
    norm_num

/-- Claim C1, amended. When the pid has a stored snapshot `last` and none of the five
cumulative counters of the new snapshot `m` is below the stored one, `updateMetrics`
returns, and `Counter.Add` has been given, for each of the five counters of
`(pid, app)`, the float64 difference of `m` and `last` in that counter: the difference
rounded to the nearest float64. A difference that is a whole number up to `2 ^ 53`, as
between two collection counts, is added exactly. -/
theorem updateMetrics_adds_rounded_delta (c : JvmGcCollector) (pid : Int) (app : String)
    (m last : gcMetrics) (hlast : c.lastMetrics.load pid = some last)
    (h1 : last.ygc ≤ m.ygc) (h2 : last.ygct ≤ m.ygct) (h3 : last.fgc ≤ m.fgc)
    (h4 : last.fgct ≤ m.fgct) (h5 : last.gct ≤ m.gct) :
    ∃ c2, updateMetrics c pid app m = some c2 ∧
      c2.counters "young_gc_count" ⟨itoa pid, app⟩ =
        some (((c.counters "young_gc_count" ⟨itoa pid, app⟩).getD CounterSeries.zero).added
          (roundFloat64 (m.ygc - last.ygc))) ∧
      c2.counters "young_gc_time" ⟨itoa pid, app⟩ =
        some (((c.counters "young_gc_time" ⟨itoa pid, app⟩).getD CounterSeries.zero).added
          (roundFloat64 (m.ygct - last.ygct))) ∧
      c2.counters "full_gc_count" ⟨itoa pid, app⟩ =
        some (((c.counters "full_gc_count" ⟨itoa pid, app⟩).getD CounterSeries.zero).added
          (roundFloat64 (m.fgc - last.fgc))) ∧
      c2.counters "full_gc_time" ⟨itoa pid, app⟩ =
        some (((c.counters "full_gc_time" ⟨itoa pid, app⟩).getD CounterSeries.zero).added
          (roundFloat64 (m.fgct - last.fgct))) ∧
      c2.counters "total_gc_time" ⟨itoa pid, app⟩ =
        some (((c.counters "total_gc_time" ⟨itoa pid, app⟩).getD CounterSeries.zero).added
          (roundFloat64 (m.gct - last.gct))) ∧
      ∀ (s : CounterSeries) (n : ℕ), n ≤ 2 ^ 53 →
        s.added (roundFloat64 (n : ℚ)) = { s with valInt := s.valInt + n } := by
  obtain ⟨c2, e, -, -, -, w1, w2, w3, w4, w5⟩ :=
    updateMetrics_with_baseline c pid app m last hlast ⟨h1, h2, h3, h4, h5⟩
  exact ⟨c2, e, w1, w2, w3, w4, w5, added_roundFloat64_natCast⟩

/-- The pid 101 with stored young count 3 and new young count 5 meets the hypotheses of
the amended claim C1. -/
theorem updateMetrics_adds_rounded_delta_witness :
    (exampleCollector.lastMetrics.load 101 = some exampleFirst ∧
      exampleFirst.ygc ≤ exampleSecond.ygc ∧ exampleFirst.ygct ≤ exampleSecond.ygct ∧
      exampleFirst.fgc ≤ exampleSecond.fgc ∧ exampleFirst.fgct ≤ exampleSecond.fgct ∧
      exampleFirst.gct ≤ exampleSecond.gct) ∧
    ∃ c2, updateMetrics exampleCollector 101 "app" exampleSecond = some c2 ∧
      c2.counters "young_gc_count" ⟨itoa 101, "app"⟩ =
        some (((exampleCollector.counters "young_gc_count" ⟨itoa 101, "app"⟩).getD CounterSeries.zero).added
          (roundFloat64 (exampleSecond.ygc - exampleFirst.ygc))) ∧
      c2.counters "young_gc_time" ⟨itoa 101, "app"⟩ =
        some (((exampleCollector.counters "young_gc_time" ⟨itoa 101, "app"⟩).getD CounterSeries.zero).added
          (roundFloat64 (exampleSecond.ygct - exampleFirst.ygct))) ∧
      c2.counters "full_gc_count" ⟨itoa 101, "app"⟩ =
        some (((exampleCollector.counters "full_gc_count" ⟨itoa 101, "app"⟩).getD CounterSeries.zero).added
          (roundFloat64 (exampleSecond.fgc - exampleFirst.fgc))) ∧
      c2.counters "full_gc_time" ⟨itoa 101, "app"⟩ =
        some (((exampleCollector.counters "full_gc_time" ⟨itoa 101, "app"⟩).getD CounterSeries.zero).added
          (roundFloat64 (exampleSecond.fgct - exampleFirst.fgct))) ∧
      c2.counters "total_gc_time" ⟨itoa 101, "app"⟩ =
        some (((exampleCollector.counters "total_gc_time" ⟨itoa 101, "app"⟩).getD CounterSeries.zero).added
          (roundFloat64 (exampleSecond.gct - exampleFirst.gct))) ∧
      ∀ (s : CounterSeries) (n : ℕ), n ≤ 2 ^ 53 →
        s.added (roundFloat64 (n : ℚ)) = { s with valInt := s.valInt + n } :=
  ⟨⟨rfl, by norm_num [exampleFirst, exampleSecond], le_refl _, le_refl _, le_refl _, le_refl _⟩,
    updateMetrics_adds_rounded_delta exampleCollector 101 "app" exampleSecond exampleFirst rfl
      (by norm_num [exampleFirst, exampleSecond]) (le_refl _) (le_refl _) (le_refl _) (le_refl _)⟩

/-- The worked example of claim C1: stored `YGC = 3`, new `YGC = 5`, and the counter
`young_gc_count` of the process reports 2. -/
theorem young_count_example :
    ∃ c2, updateMetrics exampleCollector 101 "app" exampleSecond = some c2 ∧
      c2.counters "young_gc_count" ⟨itoa 101, "app"⟩ = some { valInt := 2, valBits := 0 } ∧
      CounterSeries.get { valInt := 2, valBits := 0 } = 2 := by
  obtain ⟨c2, e, -, -, -, w, -⟩ := updateMetrics_with_baseline exampleCollector 101 "app"
    exampleSecond exampleFirst rfl ⟨by norm_num [exampleFirst, exampleSecond], le_refl _,
      le_refl _, le_refl _, le_refl _⟩
  refine ⟨c2, e, ?_, ?_⟩
  · rw [w]
    have h0 : exampleCollector.counters "young_gc_count" ⟨itoa 101, "app"⟩ = none := rfl
    have hd : exampleSecond.ygc - exampleFirst.ygc = ((2 : ℕ) : ℚ) := by
      norm_num [exampleFirst, exampleSecond]
    rw [h0, hd, added_roundFloat64_natCast _ 2 (by norm_num)]
    simp [CounterSeries.zero]
  · simpa using get_of_valInt 2 (by norm_num)

/-- Claim C2 fails on the code. The pid 101 has the stored young count 3 and is sampled
with young count 1: the difference `updateMetrics` computes is -2, not 0, and the call
ends in the panic of `Counter.Add` instead of applying an increment of 0. -/
theorem updateMetrics_regression_counterexample :
    exampleCollector.lastMetrics.load 101 = some exampleFirst ∧
    exampleRegressed.ygc < exampleFirst.ygc ∧
    (delta exampleRegressed exampleFirst).ygc = -2 ∧
    updateMetrics exampleCollector 101 "app" exampleRegressed = none := by
  refine ⟨rfl, by norm_num [exampleFirst, exampleRegressed], ?_, ?_⟩
  · have hd : (delta exampleRegressed exampleFirst).ygc = roundFloat64 (-((2 : ℕ) : ℚ)) := by
      norm_num [delta, exampleFirst, exampleRegressed]
    rw [hd, roundFloat64_neg, roundFloat64_natCast 2 (by norm_num)]
    norm_num
  · exact updateMetrics_of_regression exampleCollector 101 "app" exampleRegressed exampleFirst
      rfl (Or.inl (by norm_num [exampleFirst, exampleRegressed]))

/-- Claim C2, amended. When the pid has a stored snapshot and some cumulative counter of
the new snapshot is below the stored one, nothing is clamped: the `delta` of
`updateMetrics` holds the raw float64 differences, the negative one reaches
`Counter.Add`, which panics on it, and `updateMetrics` does not complete (no snapshot is
stored). -/
theorem updateMetrics_regression_not_clamped (c : JvmGcCollector) (pid : Int) (app : String)
    (m last : gcMetrics) (hlast : c.lastMetrics.load pid = some last)
    (hreg : m.ygc < last.ygc ∨ m.ygct < last.ygct ∨ m.fgc < last.fgc ∨ m.fgct < last.fgct ∨
      m.gct < last.gct) :
    (delta m last).ygc = roundFloat64 (m.ygc - last.ygc) ∧
    (delta m last).ygct = roundFloat64 (m.ygct - last.ygct) ∧
    (delta m last).fgc = roundFloat64 (m.fgc - last.fgc) ∧
    (delta m last).fgct = roundFloat64 (m.fgct - last.fgct) ∧
    (delta m last).gct = roundFloat64 (m.gct - last.gct) ∧
    ((delta m last).ygc < 0 ∨ (delta m last).ygct < 0 ∨ (delta m last).fgc < 0 ∨
      (delta m last).fgct < 0 ∨ (delta m last).gct < 0) ∧
    addCounters (setGauges c ⟨itoa pid, app⟩ m) ⟨itoa pid, app⟩ (delta m last) = none ∧
    updateMetrics c pid app m = none :=
  ⟨rfl, rfl, rfl, rfl, rfl, delta_neg m last hreg, addCounters_of_neg _ _ _ (delta_neg m last hreg),
    updateMetrics_of_regression c pid app m last hlast hreg⟩

/-- The pid 101 with stored young count 3 and new young count 1 meets the hypotheses of
the amended claim C2. -/
theorem updateMetrics_regression_not_clamped_witness :
    (exampleCollector.lastMetrics.load 101 = some exampleFirst ∧
      (exampleRegressed.ygc < exampleFirst.ygc ∨ exampleRegressed.ygct < exampleFirst.ygct ∨
        exampleRegressed.fgc < exampleFirst.fgc ∨ exampleRegressed.fgct < exampleFirst.fgct ∨
        exampleRegressed.gct < exampleFirst.gct)) ∧
    ((delta exampleRegressed exampleFirst).ygc =
        roundFloat64 (exampleRegressed.ygc - exampleFirst.ygc) ∧
      (delta exampleRegressed exampleFirst).ygct =
        roundFloat64 (exampleRegressed.ygct - exampleFirst.ygct) ∧
      (delta exampleRegressed exampleFirst).fgc =
        roundFloat64 (exampleRegressed.fgc - exampleFirst.fgc) ∧
      (delta exampleRegressed exampleFirst).fgct =
        roundFloat64 (exampleRegressed.fgct - exampleFirst.fgct) ∧
      (delta exampleRegressed exampleFirst).gct =
        roundFloat64 (exampleRegressed.gct - exampleFirst.gct) ∧
      ((delta exampleRegressed exampleFirst).ygc < 0 ∨
        (delta exampleRegressed exampleFirst).ygct < 0 ∨
        (delta exampleRegressed exampleFirst).fgc < 0 ∨
        (delta exampleRegressed exampleFirst).fgct < 0 ∨
        (delta exampleRegressed exampleFirst).gct < 0) ∧
      addCounters (setGauges exampleCollector ⟨itoa 101, "app"⟩ exampleRegressed)
        ⟨itoa 101, "app"⟩ (delta exampleRegressed exampleFirst) = none ∧
      updateMetrics exampleCollector 101 "app" exampleRegressed = none) :=
  ⟨⟨rfl, Or.inl (by norm_num [exampleFirst, exampleRegressed])⟩,
    updateMetrics_regression_not_clamped exampleCollector 101 "app" exampleRegressed exampleFirst
      rfl (Or.inl (by norm_num [exampleFirst, exampleRegressed]))⟩

/-- Claim C3. When the pid has no entry in the state store, `updateMetrics` returns, the
counter vectors are unchanged, each of the twelve capacity and usage gauges of
`(pid, app)` holds the value of the snapshot, and the snapshot is the stored state of
the pid. -/
theorem updateMetrics_first_observation (c : JvmGcCollector) (pid : Int) (app : String)
    (m : gcMetrics) (h : c.lastMetrics.load pid = none) :
    ∃ c2, updateMetrics c pid app m = some c2 ∧ c2.counters = c.counters ∧
      c2.lastMetrics.load pid = some m ∧
      c2.metrics "s0_capacity" ⟨itoa pid, app⟩ = some m.s0c ∧
      c2.metrics "s1_capacity" ⟨itoa pid, app⟩ = some m.s1c ∧
      c2.metrics "s0_usage" ⟨itoa pid, app⟩ = some m.s0u ∧
      c2.metrics "s1_usage" ⟨itoa pid, app⟩ = some m.s1u ∧
      c2.metrics "eden_capacity" ⟨itoa pid, app⟩ = some m.ec ∧
      c2.metrics "eden_usage" ⟨itoa pid, app⟩ = some m.eu ∧
      c2.metrics "old_capacity" ⟨itoa pid, app⟩ = some m.oc ∧
      c2.metrics "old_usage" ⟨itoa pid, app⟩ = some m.ou ∧
      c2.metrics "meta_capacity" ⟨itoa pid, app⟩ = some m.mc ∧
      c2.metrics "meta_usage" ⟨itoa pid, app⟩ = some m.mu ∧
      c2.metrics "class_capacity" ⟨itoa pid, app⟩ = some m.ccsc ∧
      c2.metrics "class_usage" ⟨itoa pid, app⟩ = some m.ccsu := by
  exact ⟨_, updateMetrics_of_load_none c pid app m h, rfl, load_store_self _ _ _,
    setGauges_values c ⟨itoa pid, app⟩ m⟩

/-- The first sample of pid 101 on a new collector meets the hypothesis of claim C3. -/
theorem updateMetrics_first_observation_witness :
    NewJvmGcCollector.lastMetrics.load 101 = none ∧
    ∃ c2, updateMetrics NewJvmGcCollector 101 "app" exampleFirst = some c2 ∧
      c2.counters = NewJvmGcCollector.counters ∧
      c2.lastMetrics.load 101 = some exampleFirst ∧
      c2.metrics "s0_capacity" ⟨itoa 101, "app"⟩ = some exampleFirst.s0c ∧
      c2.metrics "s1_capacity" ⟨itoa 101, "app"⟩ = some exampleFirst.s1c ∧
      c2.metrics "s0_usage" ⟨itoa 101, "app"⟩ = some exampleFirst.s0u ∧
      c2.metrics "s1_usage" ⟨itoa 101, "app"⟩ = some exampleFirst.s1u ∧
      c2.metrics "eden_capacity" ⟨itoa 101, "app"⟩ = some exampleFirst.ec ∧
      c2.metrics "eden_usage" ⟨itoa 101, "app"⟩ = some exampleFirst.eu ∧
      c2.metrics "old_capacity" ⟨itoa 101, "app"⟩ = some exampleFirst.oc ∧
      c2.metrics "old_usage" ⟨itoa 101, "app"⟩ = some exampleFirst.ou ∧
      c2.metrics "meta_capacity" ⟨itoa 101, "app"⟩ = some exampleFirst.mc ∧
      c2.metrics "meta_usage" ⟨itoa 101, "app"⟩ = some exampleFirst.mu ∧
      c2.metrics "class_capacity" ⟨itoa 101, "app"⟩ = some exampleFirst.ccsc ∧
      c2.metrics "class_usage" ⟨itoa 101, "app"⟩ = some exampleFirst.ccsu :=
  ⟨rfl, updateMetrics_first_observation NewJvmGcCollector 101 "app" exampleFirst rfl⟩

/-- Claim C4. In a cycle of `Collect` whose live set is `filterAlivePids h pids`, once
the cycle has completed every key of the store is in the live set, and every pid that
was a key before and is not in the live set has no state and no series under any gauge
or counter of the collector, whatever the app label. -/
theorem Collect_evicts_stale (h : Host) (c : JvmGcCollector) (pids : List Int)
    (hp : h.getJavaPids = some pids) (c2 : JvmGcCollector) (e : Collect h c = some c2) :
    (∀ k ∈ c2.lastMetrics.keys, k ∈ filterAlivePids h pids) ∧
    (∀ p ∈ c.lastMetrics.keys, p ∉ filterAlivePids h pids →
      c2.lastMetrics.load p = none ∧
      ∀ n app,
        (n ∈ gaugeKeys → c2.metrics n ⟨itoa p, app⟩ = none) ∧
        (n ∈ counterKeys → c2.counters n ⟨itoa p, app⟩ = none)) := by
  obtain ⟨h1, h2, h3⟩ := runTasks_frame h _ _ c2 (Collect_runTasks h c c2 pids hp e)
  refine ⟨?_, ?_⟩
  · intro k hk
    rcases h1 k hk with hh | hh
    · exact (mem_sorted_alive h pids k).mp hh
    · exact (mem_sorted_alive h pids k).mp ((cleanupStaleMetrics_keys _ _ _).mp hh).2
  · intro p hpk hps
    have hps2 : p ∉ (filterAlivePids h pids).insertionSort (fun a b => a ≤ b) :=
      fun hh => hps ((mem_sorted_alive h pids p).mp hh)
    refine ⟨?_, ?_⟩
    · rw [h2 p hps2, cleanupStaleMetrics_load, if_neg hps2]
    · intro n app
      have hfr := h3 n ⟨itoa p, app⟩ (fun q hq e2 => hps2 (itoa_injective e2 ▸ hq))
      refine ⟨fun hn => ?_, fun hn => ?_⟩
      · rw [hfr.1]
        exact cleanupStaleMetrics_metrics_evicted c _ n _ p hn hpk hps2 rfl
      · rw [hfr.2]
        exact cleanupStaleMetrics_counters_evicted c _ n _ p hn hpk hps2 rfl

/-- A cycle with 50 slots and the live processes 202 and 303, on a collector that holds
pid 101, completes and meets the hypotheses of claim C4. -/
theorem Collect_evicts_stale_witness :
    exampleHost.getJavaPids = some [202, 303] ∧
    ∃ c2, Collect exampleHost exampleCollector = some c2 ∧
      (∀ k ∈ c2.lastMetrics.keys, k ∈ filterAlivePids exampleHost [202, 303]) ∧
      (∀ p ∈ exampleCollector.lastMetrics.keys, p ∉ filterAlivePids exampleHost [202, 303] →
        c2.lastMetrics.load p = none ∧
        ∀ n app,
          (n ∈ gaugeKeys → c2.metrics n ⟨itoa p, app⟩ = none) ∧
          (n ∈ counterKeys → c2.counters n ⟨itoa p, app⟩ = none)) := by
  have hc : ∃ c2, Collect exampleHost exampleCollector = some c2 := by
    apply Collect_completes exampleHost exampleCollector [202, 303] rfl (by decide)
    intro pid hpid m last _ hl
    have hp2 : pid = 202 ∨ pid = 303 := by
      simpa [filterAlivePids, exampleHost] using hpid
    rcases hp2 with rfl | rfl
    · exact Option.noConfusion hl
    · exact Option.noConfusion hl
  obtain ⟨c2, e⟩ := hc
  exact ⟨rfl, c2, e, Collect_evicts_stale exampleHost exampleCollector [202, 303] rfl c2 e⟩

/-- Claim C5. For a pid with a stored snapshot, `cleanupStaleMetrics` removes the
snapshot if and only if the pid is absent from the live list: a pid in the list keeps the
same snapshot and all its series, a pid not in the list loses its series under every
gauge and counter of the collector. -/
theorem cleanupStaleMetrics_removes_iff_absent (c : JvmGcCollector) (current : List Int)
    (pid : Int) (s : gcMetrics) (h : c.lastMetrics.load pid = some s) :
    ((cleanupStaleMetrics c current).lastMetrics.load pid = none ↔ pid ∉ current) ∧
    (pid ∈ current →
      (cleanupStaleMetrics c current).lastMetrics.load pid = some s ∧
      ∀ n app,
        (cleanupStaleMetrics c current).metrics n ⟨itoa pid, app⟩ =
          c.metrics n ⟨itoa pid, app⟩ ∧
        (cleanupStaleMetrics c current).counters n ⟨itoa pid, app⟩ =
          c.counters n ⟨itoa pid, app⟩) ∧
    (pid ∉ current →
      ∀ n app,
        (n ∈ gaugeKeys → (cleanupStaleMetrics c current).metrics n ⟨itoa pid, app⟩ = none) ∧
        (n ∈ counterKeys → (cleanupStaleMetrics c current).counters n ⟨itoa pid, app⟩ = none)) := by
  have hkey : pid ∈ c.lastMetrics.keys := by
    by_contra hk
    rw [(load_eq_none_iff _ _).mpr hk] at h
    exact Option.noConfusion h
  refine ⟨?_, ?_, ?_⟩
  · rw [cleanupStaleMetrics_load]
    by_cases hc : pid ∈ current <;> simp [hc, h]
  · intro hc
    exact ⟨by rw [cleanupStaleMetrics_load, if_pos hc, h], fun n app =>
      ⟨cleanupStaleMetrics_metrics_kept c current n _ pid hc rfl,
       cleanupStaleMetrics_counters_kept c current n _ pid hc rfl⟩⟩
  · intro hc n app
    exact ⟨fun hn => cleanupStaleMetrics_metrics_evicted c current n _ pid hn hkey hc rfl,
      fun hn => cleanupStaleMetrics_counters_evicted c current n _ pid hn hkey hc rfl⟩

/-- The collector holding pid 101 and the live list 202, 303 meet the hypothesis of
claim C5. -/
theorem cleanupStaleMetrics_removes_iff_absent_witness :
    exampleCollector.lastMetrics.load 101 = some exampleFirst ∧
    (((cleanupStaleMetrics exampleCollector [202, 303]).lastMetrics.load 101 = none ↔
        (101 : Int) ∉ [202, 303]) ∧
      ((101 : Int) ∈ [202, 303] →
        (cleanupStaleMetrics exampleCollector [202, 303]).lastMetrics.load 101 =
          some exampleFirst ∧
        ∀ n app,
          (cleanupStaleMetrics exampleCollector [202, 303]).metrics n ⟨itoa 101, app⟩ =
            exampleCollector.metrics n ⟨itoa 101, app⟩ ∧
          (cleanupStaleMetrics exampleCollector [202, 303]).counters n ⟨itoa 101, app⟩ =
            exampleCollector.counters n ⟨itoa 101, app⟩) ∧
      ((101 : Int) ∉ [202, 303] →
        ∀ n app,
          (n ∈ gaugeKeys →
            (cleanupStaleMetrics exampleCollector [202, 303]).metrics n ⟨itoa 101, app⟩ = none) ∧
          (n ∈ counterKeys →
            (cleanupStaleMetrics exampleCollector [202, 303]).counters n ⟨itoa 101, app⟩
              = none))) :=
  ⟨rfl, cleanupStaleMetrics_removes_iff_absent exampleCollector [202, 303] 101 exampleFirst rfl⟩

/-- Claim C6. When the first two lines of the output have the same number of fields,
`scrapeJstat` returns a snapshot in which, for every header (at its last occurrence on
the header line), the field named by the header holds the number parsed from the token
under it: times 1024 for the twelve capacity and usage fields, unscaled for the five
counters. -/
theorem scrapeJstat_scales_fields (pf : String → ℚ × Bool) (out l0 l1 : String)
    (rest : List String) (hs : Split out '\n' = l0 :: l1 :: rest)
    (hlen : (Fields l0).length = (Fields l1).length) :
    ∃ m, scrapeJstat pf (some out) = Except.ok m ∧
      ∀ (i : Nat) (h v : String), (Fields l0)[i]? = some h → (Fields l1)[i]? = some v →
      (∀ j, i < j → (Fields l0)[j]? ≠ some h) →
      (h = "S0C" → m.s0c = (pf v).1 * 1024) ∧
      (h = "S1C" → m.s1c = (pf v).1 * 1024) ∧
      (h = "S0U" → m.s0u = (pf v).1 * 1024) ∧
      (h = "S1U" → m.s1u = (pf v).1 * 1024) ∧
      (h = "EC" → m.ec = (pf v).1 * 1024) ∧
      (h = "EU" → m.eu = (pf v).1 * 1024) ∧
      (h = "OC" → m.oc = (pf v).1 * 1024) ∧
      (h = "OU" → m.ou = (pf v).1 * 1024) ∧
      (h = "MC" → m.mc = (pf v).1 * 1024) ∧
      (h = "MU" → m.mu = (pf v).1 * 1024) ∧
      (h = "CCSC" → m.ccsc = (pf v).1 * 1024) ∧
      (h = "CCSU" → m.ccsu = (pf v).1 * 1024) ∧
      (h = "YGC" → m.ygc = (pf v).1) ∧
      (h = "YGCT" → m.ygct = (pf v).1) ∧
      (h = "FGC" → m.fgc = (pf v).1) ∧
      (h = "FGCT" → m.fgct = (pf v).1) ∧
      (h = "GCT" → m.gct = (pf v).1) :=
  parseOutput_field_values pf out l0 l1 rest hs hlen

/-- The output `EC` over `1024` meets the hypotheses of claim C6. -/
theorem scrapeJstat_scales_fields_witness :
    (Split "EC\n1024\n" '\n' = ["EC", "1024", ""] ∧
      (Fields "EC").length = (Fields "1024").length) ∧
    ∃ m, scrapeJstat parseDecimal (some "EC\n1024\n") = Except.ok m ∧
      ∀ (i : Nat) (h v : String), (Fields "EC")[i]? = some h → (Fields "1024")[i]? = some v →
      (∀ j, i < j → (Fields "EC")[j]? ≠ some h) →
      (h = "S0C" → m.s0c = (parseDecimal v).1 * 1024) ∧
      (h = "S1C" → m.s1c = (parseDecimal v).1 * 1024) ∧
      (h = "S0U" → m.s0u = (parseDecimal v).1 * 1024) ∧
      (h = "S1U" → m.s1u = (parseDecimal v).1 * 1024) ∧
      (h = "EC" → m.ec = (parseDecimal v).1 * 1024) ∧
      (h = "EU" → m.eu = (parseDecimal v).1 * 1024) ∧
      (h = "OC" → m.oc = (parseDecimal v).1 * 1024) ∧
      (h = "OU" → m.ou = (parseDecimal v).1 * 1024) ∧
      (h = "MC" → m.mc = (parseDecimal v).1 * 1024) ∧
      (h = "MU" → m.mu = (parseDecimal v).1 * 1024) ∧
      (h = "CCSC" → m.ccsc = (parseDecimal v).1 * 1024) ∧
      (h = "CCSU" → m.ccsu = (parseDecimal v).1 * 1024) ∧
      (h = "YGC" → m.ygc = (parseDecimal v).1) ∧
      (h = "YGCT" → m.ygct = (parseDecimal v).1) ∧
      (h = "FGC" → m.fgc = (parseDecimal v).1) ∧
      (h = "FGCT" → m.fgct = (parseDecimal v).1) ∧
      (h = "GCT" → m.gct = (parseDecimal v).1) :=
  ⟨⟨by decide, by decide⟩,
    scrapeJstat_scales_fields parseDecimal "EC\n1024\n" "EC" "1024" [""] (by decide) (by decide)⟩

/-- The worked example: the output `exampleOutput` is parsed to `exampleFirst`, with
`EC 500` giving the eden capacity 512000. -/
theorem scrapeJstat_example :
    scrapeJstat parseDecimal (some exampleOutput) = Except.ok exampleFirst := by
  have hs : Split exampleOutput '\n' =
      ["S0C S1C EC EU OC OU MC MU CCSC CCSU YGC YGCT FGC FGCT GCT",
       "100 100 500 50 1000 200 50 10 20 5 3 0.05 1 0.2 0.25", ""] := by decide
  have h0 : Fields "S0C S1C EC EU OC OU MC MU CCSC CCSU YGC YGCT FGC FGCT GCT" =
      ["S0C", "S1C", "EC", "EU", "OC", "OU", "MC", "MU", "CCSC", "CCSU", "YGC", "YGCT", "FGC",
       "FGCT", "GCT"] := by decide
  have h1 : Fields "100 100 500 50 1000 200 50 10 20 5 3 0.05 1 0.2 0.25" =
      ["100", "100", "500", "50", "1000", "200", "50", "10", "20", "5", "3", "0.05", "1", "0.2",
       "0.25"] := by decide
  have p0 : decimalParts "100".data = some (false, 100, 0) := by decide
  have p1 : decimalParts "500".data = some (false, 500, 0) := by decide
  have p2 : decimalParts "50".data = some (false, 50, 0) := by decide
  have p3 : decimalParts "1000".data = some (false, 1000, 0) := by decide
  have p4 : decimalParts "200".data = some (false, 200, 0) := by decide
  have p5 : decimalParts "10".data = some (false, 10, 0) := by decide
  have p6 : decimalParts "20".data = some (false, 20, 0) := by decide
  have p7 : decimalParts "5".data = some (false, 5, 0) := by decide
  have p8 : decimalParts "3".data = some (false, 3, 0) := by decide
  have p9 : decimalParts "0.05".data = some (false, 5, 2) := by decide
  have p10 : decimalParts "1".data = some (false, 1, 0) := by decide
  have p11 : decimalParts "0.2".data = some (false, 2, 1) := by decide
  have p12 : decimalParts "0.25".data = some (false, 25, 2) := by decide
  have r100 : roundFloat64 (100 : ℚ) = 100 := by
    simpa using roundFloat64_natCast 100 (by norm_num)
  have r500 : roundFloat64 (500 : ℚ) = 500 := by
    simpa using roundFloat64_natCast 500 (by norm_num)
  have r50 : roundFloat64 (50 : ℚ) = 50 := by
    simpa using roundFloat64_natCast 50 (by norm_num)
  have r1000 : roundFloat64 (1000 : ℚ) = 1000 := by
    simpa using roundFloat64_natCast 1000 (by norm_num)
  have r200 : roundFloat64 (200 : ℚ) = 200 := by
    simpa using roundFloat64_natCast 200 (by norm_num)
  have r10 : roundFloat64 (10 : ℚ) = 10 := by
    simpa using roundFloat64_natCast 10 (by norm_num)
  have r20 : roundFloat64 (20 : ℚ) = 20 := by
    simpa using roundFloat64_natCast 20 (by norm_num)
  have r5 : roundFloat64 (5 : ℚ) = 5 := by
    simpa using roundFloat64_natCast 5 (by norm_num)
  have r3 : roundFloat64 (3 : ℚ) = 3 := by
    simpa using roundFloat64_natCast 3 (by norm_num)
  have r1 : roundFloat64 (1 : ℚ) = 1 := by
    simpa using roundFloat64_natCast 1 (by norm_num)
  have q1 : roundFloat64 ((5 : ℚ) / 10 ^ 2) = 3602879701896397 / 2 ^ 56 := by
    rw [show ((5 : ℚ) / 10 ^ 2) = 1 / 20 by norm_num]; exact roundFloat64_twentieth
  have q2 : roundFloat64 ((2 : ℚ) / 10 ^ 1) = 3602879701896397 / 2 ^ 54 := by
    rw [show ((2 : ℚ) / 10 ^ 1) = 1 / 5 by norm_num]; exact roundFloat64_fifth
  have q3 : roundFloat64 ((25 : ℚ) / 10 ^ 2) = 1 / 4 := by
    rw [show ((25 : ℚ) / 10 ^ 2) = 1 / 4 by norm_num]; exact roundFloat64_quarter
  have e := parseOutput_of_split parseDecimal exampleOutput _ _ _ hs (by rw [h0, h1]; rfl)
  simp only [scrapeJstat, e, h0, h1, buildData, List.zip_cons_cons, List.zip_nil_right,
    List.foldl_cons, List.foldl_nil, parseDecimal, p0, p1, p2, p3, p4, p5, p6, p7, p8, p9, p10, p11, p12]
  simp only [Bool.false_eq_true, if_false, Nat.cast_ofNat, pow_zero, div_one, r100, r500, r50,
    r1000, r200, r10, r20, r5, r3, q1, q2, q3]
  simp [exampleFirst]
  norm_num
  exact r1

/-- Claim C7. With the lines of a text being its pieces between newline characters, the
parsing step of `scrapeJstat` returns an error exactly when the text has fewer than two
lines (no newline) or the header line and the value line differ in their number of
fields, and a snapshot exactly when it has two lines of matching arity. -/
theorem parseOutput_error_iff (pf : String → ℚ × Bool) (out : String) :
    ((∃ e, parseOutput pf out = Except.error e) ↔
      ('\n' ∉ out.data ∨
        (Fields (String.mk (out.data.takeWhile (fun c => c != '\n')))).length ≠
        (Fields (String.mk (((out.data.dropWhile (fun c => c != '\n')).drop 1).takeWhile
          (fun c => c != '\n')))).length)) ∧
    ((∃ m, parseOutput pf out = Except.ok m) ↔
      ('\n' ∈ out.data ∧
        (Fields (String.mk (out.data.takeWhile (fun c => c != '\n')))).length =
        (Fields (String.mk (((out.data.dropWhile (fun c => c != '\n')).drop 1).takeWhile
          (fun c => c != '\n')))).length)) := by
  by_cases hm : '\n' ∈ out.data
  · have hs : Split out '\n' =
        String.mk (out.data.takeWhile (fun c => c != '\n')) ::
        String.mk (((out.data.dropWhile (fun c => c != '\n')).drop 1).takeWhile
          (fun c => c != '\n')) ::
        ((if '\n' ∈ (out.data.dropWhile (fun c => c != '\n')).drop 1 then
          splitChars '\n'
            (((((out.data.dropWhile (fun c => c != '\n')).drop 1).dropWhile
              (fun c => c != '\n'))).drop 1)
          else []).map String.mk) := by
      unfold Split
      rw [splitChars_eq, if_pos hm,
        splitChars_eq '\n' ((out.data.dropWhile (fun c => c != '\n')).drop 1)]
      simp only [List.map_cons]
    by_cases hlen : (Fields (String.mk (out.data.takeWhile (fun c => c != '\n')))).length =
        (Fields (String.mk (((out.data.dropWhile (fun c => c != '\n')).drop 1).takeWhile
          (fun c => c != '\n')))).length
    · have := parseOutput_of_split pf out _ _ _ hs hlen
      rw [this]
      exact ⟨⟨fun ⟨e, he⟩ => Except.noConfusion he,
        fun h => h.elim (fun h1 => absurd hm h1) (fun h2 => absurd hlen h2)⟩,
        ⟨fun _ => ⟨hm, hlen⟩, fun _ => ⟨_, rfl⟩⟩⟩
    · have : parseOutput pf out = Except.error "header/value mismatch" := by
        simp only [parseOutput, hs, ne_eq, hlen, not_false_eq_true, if_true]
      rw [this]
      exact ⟨⟨fun _ => Or.inr hlen, fun _ => ⟨_, rfl⟩⟩,
        ⟨fun ⟨m, he⟩ => Except.noConfusion he, fun h => absurd h.2 hlen⟩⟩
  · have hlt := (Split_length_lt_two_iff out).mpr hm
    have : parseOutput pf out = Except.error "invalid jstat output" := by
      unfold parseOutput
      split
      · rename_i l0 l1 rest hs
        rw [hs] at hlt
        simp only [List.length_cons] at hlt
        omega
      · rfl
    rw [this]
    exact ⟨⟨fun _ => Or.inl hm, fun _ => ⟨_, rfl⟩⟩,
      ⟨fun ⟨m, he⟩ => Except.noConfusion he, fun h => absurd h.1 hm⟩⟩

/-- Claim C8 fails on the code. The token `abc` is not a number, yet `scrapeJstat`
returns a snapshot for the output `EC YGC` over `1024 abc`: the error of the conversion
is discarded and the young count is 0. -/
theorem scrapeJstat_malformed_value_counterexample :
    Fields "1024 abc" = ["1024", "abc"] ∧ (parseDecimal "abc").2 = false ∧
    scrapeJstat parseDecimal (some "EC YGC\n1024 abc") =
      Except.ok { gcMetrics.zero with ec := 1048576, ygc := 0 } := by
  refine ⟨by decide, by decide, ?_⟩
  have hs : Split "EC YGC\n1024 abc" '\n' = ["EC YGC", "1024 abc"] := by decide
  have h0 : Fields "EC YGC" = ["EC", "YGC"] := by decide
  have h1 : Fields "1024 abc" = ["1024", "abc"] := by decide
  have p1 : decimalParts "1024".data = some (false, 1024, 0) := by decide
  have p2 : decimalParts "abc".data = none := by decide
  have r1 : roundFloat64 (1024 : ℚ) = 1024 := by
    simpa using roundFloat64_natCast 1024 (by norm_num)
  have e := parseOutput_of_split parseDecimal "EC YGC\n1024 abc" "EC YGC" "1024 abc" [] hs
    (by decide)
  simp only [scrapeJstat, e, h0, h1, buildData, List.zip_cons_cons, List.zip_nil_right,
    List.foldl_cons, List.foldl_nil, parseDecimal, p1, p2]
  simp only [Bool.false_eq_true, if_false, Nat.cast_ofNat, pow_zero, div_one, r1]
  simp [gcMetrics.zero]
  norm_num

/-- Claim C8, amended. When the first two lines of the output have the same number of
fields, a token that is not a parseable number does not make `scrapeJstat` fail: it
returns a snapshot, the field named by the header over the token holds the value
`strconv.ParseFloat` returned with its error, scaled like any other, and the sampling
task of `Collect` hands this snapshot to `updateMetrics` as it does any other. -/
theorem scrapeJstat_discards_parse_error (pf : String → ℚ × Bool) (out l0 l1 : String)
    (rest : List String) (hs : Split out '\n' = l0 :: l1 :: rest)
    (hlen : (Fields l0).length = (Fields l1).length)
    (i : Nat) (h v : String) (hh : (Fields l0)[i]? = some h) (hv : (Fields l1)[i]? = some v)
    (hlast : ∀ j, i < j → (Fields l0)[j]? ≠ some h) (hbad : (pf v).2 = false) :
    ∃ m, scrapeJstat pf (some out) = Except.ok m ∧
      ((h = "S0C" → m.s0c = (pf v).1 * 1024) ∧
      (h = "S1C" → m.s1c = (pf v).1 * 1024) ∧
      (h = "S0U" → m.s0u = (pf v).1 * 1024) ∧
      (h = "S1U" → m.s1u = (pf v).1 * 1024) ∧
      (h = "EC" → m.ec = (pf v).1 * 1024) ∧
      (h = "EU" → m.eu = (pf v).1 * 1024) ∧
      (h = "OC" → m.oc = (pf v).1 * 1024) ∧
      (h = "OU" → m.ou = (pf v).1 * 1024) ∧
      (h = "MC" → m.mc = (pf v).1 * 1024) ∧
      (h = "MU" → m.mu = (pf v).1 * 1024) ∧
      (h = "CCSC" → m.ccsc = (pf v).1 * 1024) ∧
      (h = "CCSU" → m.ccsu = (pf v).1 * 1024) ∧
      (h = "YGC" → m.ygc = (pf v).1) ∧
      (h = "YGCT" → m.ygct = (pf v).1) ∧
      (h = "FGC" → m.fgc = (pf v).1) ∧
      (h = "FGCT" → m.fgct = (pf v).1) ∧
      (h = "GCT" → m.gct = (pf v).1)) ∧
      ∀ (host : Host) (c : JvmGcCollector) (pid : Int), host.parseFloat = pf →
        host.jstat pid = some out → host.aliveInTask pid = true →
        scrapeTask host c pid = updateMetrics c pid (host.getAppName pid) m := by
  have _ := hbad
  obtain ⟨m, e, hm⟩ := parseOutput_field_values pf out l0 l1 rest hs hlen
  refine ⟨m, e, hm i h v hh hv hlast, ?_⟩
  intro host c pid hpf hj ha
  have e2 : scrapeJstat host.parseFloat (host.jstat pid) = Except.ok m := by
    rw [hpf, hj]; exact e
  simp only [scrapeTask, ha, Bool.not_true, Bool.false_eq_true, if_false, e2]

/-- The output `EC YGC` over `1024 abc` meets the hypotheses of the amended claim C8. -/
theorem scrapeJstat_discards_parse_error_witness :
    (Split "EC YGC\n1024 abc" '\n' = ["EC YGC", "1024 abc"] ∧
      (Fields "EC YGC").length = (Fields "1024 abc").length ∧
      (Fields "EC YGC")[1]? = some "YGC" ∧ (Fields "1024 abc")[1]? = some "abc" ∧
      (∀ j, 1 < j → (Fields "EC YGC")[j]? ≠ some "YGC") ∧ (parseDecimal "abc").2 = false) ∧
    ∃ m, scrapeJstat parseDecimal (some "EC YGC\n1024 abc") = Except.ok m ∧
      (("YGC" = "S0C" → m.s0c = (parseDecimal "abc").1 * 1024) ∧
      ("YGC" = "S1C" → m.s1c = (parseDecimal "abc").1 * 1024) ∧
      ("YGC" = "S0U" → m.s0u = (parseDecimal "abc").1 * 1024) ∧
      ("YGC" = "S1U" → m.s1u = (parseDecimal "abc").1 * 1024) ∧
      ("YGC" = "EC" → m.ec = (parseDecimal "abc").1 * 1024) ∧
      ("YGC" = "EU" → m.eu = (parseDecimal "abc").1 * 1024) ∧
      ("YGC" = "OC" → m.oc = (parseDecimal "abc").1 * 1024) ∧
      ("YGC" = "OU" → m.ou = (parseDecimal "abc").1 * 1024) ∧
      ("YGC" = "MC" → m.mc = (parseDecimal "abc").1 * 1024) ∧
      ("YGC" = "MU" → m.mu = (parseDecimal "abc").1 * 1024) ∧
      ("YGC" = "CCSC" → m.ccsc = (parseDecimal "abc").1 * 1024) ∧
      ("YGC" = "CCSU" → m.ccsu = (parseDecimal "abc").1 * 1024) ∧
      ("YGC" = "YGC" → m.ygc = (parseDecimal "abc").1) ∧
      ("YGC" = "YGCT" → m.ygct = (parseDecimal "abc").1) ∧
      ("YGC" = "FGC" → m.fgc = (parseDecimal "abc").1) ∧
      ("YGC" = "FGCT" → m.fgct = (parseDecimal "abc").1) ∧
      ("YGC" = "GCT" → m.gct = (parseDecimal "abc").1)) ∧
      ∀ (host : Host) (c : JvmGcCollector) (pid : Int), host.parseFloat = parseDecimal →
        host.jstat pid = some "EC YGC\n1024 abc" → host.aliveInTask pid = true →
        scrapeTask host c pid = updateMetrics c pid (host.getAppName pid) m :=
  have hl : ∀ j, 1 < j → (Fields "EC YGC")[j]? ≠ some "YGC" := by
    intro j hj
    have h0 : Fields "EC YGC" = ["EC", "YGC"] := by decide
    rw [h0, List.getElem?_eq_none (by simpa using hj)]
    exact Option.noConfusion
  ⟨⟨by decide, by decide, by decide, by decide, hl, by decide⟩,
    scrapeJstat_discards_parse_error parseDecimal "EC YGC\n1024 abc" "EC YGC" "1024 abc" []
      (by decide) (by decide) 1 "YGC" "abc" (by decide) (by decide) hl (by decide)⟩

/-- Claim C9. In every state the fan-out of `Collect` reaches, under every schedule, the
number of tasks holding a slot is at most the capacity of `sem`; and once `wg.Wait()`
has returned the loop has ended, `sem` is empty and every task has given its slot back
and finished. -/
theorem fanOut_bounded_and_joined (currentPID : Int) (cap : Nat) (alivePids : List Int)
    (es : List Event) (s : FanOut)
    (h : FanOut.run currentPID (FanOut.init cap alivePids) es = some s) :
    s.count TaskPhase.inFlight ≤ cap ∧
    (s.joined = true → s.pending = [] ∧ s.sem = 0 ∧ ∀ t ∈ s.tasks, t.2 = TaskPhase.done) := by
  obtain ⟨⟨h1, h2, h3, h4⟩, hc⟩ :=
    FanOut.inv_run currentPID es _ s (FanOut.inv_init cap alivePids) h
  have hcap : s.cap = cap := hc
  refine ⟨by omega, ?_⟩
  intro hj
  have hw := (h4 hj).2
  have hall : s.tasks.countP (fun t => decide (t.2 = TaskPhase.done)) = s.tasks.length := by
    simp only [FanOut.count] at h3
    omega
  have hdone : ∀ t ∈ s.tasks, t.2 = TaskPhase.done := by
    intro t ht
    have := List.countP_eq_length.mp hall t ht
    simpa using this
  refine ⟨(h4 hj).1, ?_, hdone⟩
  rw [h1, FanOut.count, List.countP_eq_zero]
  intro t ht
  simp [hdone t ht]

/-- The schedule `exampleSchedule` meets the hypothesis of claim C9. -/
theorem fanOut_bounded_and_joined_witness :
    FanOut.run 1 (FanOut.init 1 [101, 1, 202]) exampleSchedule = some exampleJoined ∧
    (exampleJoined.count TaskPhase.inFlight ≤ 1 ∧
      (exampleJoined.joined = true →
        exampleJoined.pending = [] ∧ exampleJoined.sem = 0 ∧
        ∀ t ∈ exampleJoined.tasks, t.2 = TaskPhase.done)) :=
  ⟨by decide, fanOut_bounded_and_joined 1 1 [101, 1, 202] exampleSchedule exampleJoined
    (by decide)⟩

/-- Claim C10 fails on the code, whose counters are float64. The pid 101 is sampled
three times with young collection times 0.001, 0.002 and 0.018, as float64 values, on a
new collector: the counter `young_gc_time` ends at `1224979098644775 / 2 ^ 56` (0.017),
which is neither the difference `19599665578316397 / 2 ^ 60` of the last and the first
value nor that difference rounded to float64 (0.016999999999999998). -/
theorem applySnapshots_rounding_counterexample :
    List.Chain' countersLe exampleTimes ∧
    exampleTime3.ygct - exampleTime1.ygct = 19599665578316397 / 2 ^ 60 ∧
    roundFloat64 (exampleTime3.ygct - exampleTime1.ygct) = 4899916394579099 / 2 ^ 58 ∧
    (1224979098644775 / 2 ^ 56 : ℚ) ≠ 19599665578316397 / 2 ^ 60 ∧
    (1224979098644775 / 2 ^ 56 : ℚ) ≠ 4899916394579099 / 2 ^ 58 ∧
    ∃ c2, applySnapshots NewJvmGcCollector 101 "app" exampleTimes = some c2 ∧
      (c2.counters "young_gc_time" ⟨itoa 101, "app"⟩).getD CounterSeries.zero =
        { valInt := 0, valBits := 1224979098644775 / 2 ^ 56 } ∧
      CounterSeries.get { valInt := 0, valBits := 1224979098644775 / 2 ^ 56 } =
        1224979098644775 / 2 ^ 56 := by
  have e1 : exampleTime1.ygct = 1152921504606847 / 2 ^ 60 := rfl
  have e2 : exampleTime2.ygct = 1152921504606847 / 2 ^ 59 := rfl
  have e3 : exampleTime3.ygct = 5188146770730811 / 2 ^ 58 := rfl
  have h12 : countersLe exampleTime1 exampleTime2 :=
    ⟨le_refl _, by rw [e1, e2]; norm_num, le_refl _, le_refl _, le_refl _⟩
  have h23 : countersLe exampleTime2 exampleTime3 :=
    ⟨le_refl _, by rw [e2, e3]; norm_num, le_refl _, le_refl _, le_refl _⟩
  have hch : List.Chain' countersLe exampleTimes := by
    simp only [exampleTimes, List.chain'_cons, List.chain'_singleton, and_true]
    exact ⟨h12, h23⟩
  have hfirst : updateMetrics NewJvmGcCollector 101 "app" exampleTime1 =
      some exampleTimeCollector := updateMetrics_of_load_none _ _ _ _ rfl
  have hload : exampleTimeCollector.lastMetrics.load 101 = some exampleTime1 := rfl
  have h0 : exampleTimeCollector.counters "young_gc_time" ⟨itoa 101, "app"⟩ = none := rfl
  obtain ⟨c2, e, -, -, w, -⟩ := applySnapshots_series 101 "app" [exampleTime2, exampleTime3]
    exampleTimeCollector exampleTime1 hload hch
  refine ⟨hch, by rw [e1, e3]; norm_num, by rw [e1, e3]; exact roundFloat64_time_direct,
    by norm_num, by norm_num, c2, ?_, ?_, get_exampleTimes⟩
  · rw [show exampleTimes = exampleTime1 :: [exampleTime2, exampleTime3] from rfl,
      applySnapshots_cons_of_some _ _ _ _ _ _ hfirst]
    exact e
  · rw [w, h0, show exampleTime1 :: [exampleTime2, exampleTime3] = exampleTimes from rfl,
      increments_exampleTimes]
    exact addAll_exampleTimes

/-- Claim C10, amended. When the snapshots `s1 :: rest` are applied in order to one pid
and label, `s1` is applied successfully and no cumulative counter decreases along the
sequence, all the calls return and the stored state at the end is the last snapshot.
Each of the five counters has received, since `s1` was applied, the float64 differences
of consecutive snapshots, in order. For a counter whose values are whole numbers up to
`2 ^ 53`, as the collection counts are, they add up exactly to the last value minus
the one of `s1`; for other values the total is the float64 sum of the rounded
differences. -/
theorem applySnapshots_accumulates_increments (c c1 : JvmGcCollector) (pid : Int)
    (app : String) (s1 : gcMetrics) (rest : List gcMetrics)
    (hfirst : updateMetrics c pid app s1 = some c1)
    (hmono : List.Chain' countersLe (s1 :: rest)) :
    ∃ c2, applySnapshots c pid app (s1 :: rest) = some c2 ∧
      c2.lastMetrics.load pid = some ((s1 :: rest).getLast (List.cons_ne_nil s1 rest)) ∧
      (c2.counters "young_gc_count" ⟨itoa pid, app⟩).getD CounterSeries.zero =
        ((c1.counters "young_gc_count" ⟨itoa pid, app⟩).getD CounterSeries.zero).addAll
          (increments gcMetrics.ygc (s1 :: rest)) ∧
      (c2.counters "young_gc_time" ⟨itoa pid, app⟩).getD CounterSeries.zero =
        ((c1.counters "young_gc_time" ⟨itoa pid, app⟩).getD CounterSeries.zero).addAll
          (increments gcMetrics.ygct (s1 :: rest)) ∧
      (c2.counters "full_gc_count" ⟨itoa pid, app⟩).getD CounterSeries.zero =
        ((c1.counters "full_gc_count" ⟨itoa pid, app⟩).getD CounterSeries.zero).addAll
          (increments gcMetrics.fgc (s1 :: rest)) ∧
      (c2.counters "full_gc_time" ⟨itoa pid, app⟩).getD CounterSeries.zero =
        ((c1.counters "full_gc_time" ⟨itoa pid, app⟩).getD CounterSeries.zero).addAll
          (increments gcMetrics.fgct (s1 :: rest)) ∧
      (c2.counters "total_gc_time" ⟨itoa pid, app⟩).getD CounterSeries.zero =
        ((c1.counters "total_gc_time" ⟨itoa pid, app⟩).getD CounterSeries.zero).addAll
          (increments gcMetrics.gct (s1 :: rest)) ∧
      ∀ (f : gcMetrics → ℚ) (s0 : CounterSeries),
        (∀ s ∈ s1 :: rest, ∃ n : ℕ, n ≤ 2 ^ 53 ∧ f s = n) →
        List.Chain' (fun a b => f a ≤ f b) (s1 :: rest) →
        (s0.addAll (increments f (s1 :: rest))).valBits = s0.valBits ∧
        ((s0.addAll (increments f (s1 :: rest))).valInt : ℚ) =
          s0.valInt + (f ((s1 :: rest).getLast (List.cons_ne_nil s1 rest)) - f s1) := by
  have hload : c1.lastMetrics.load pid = some s1 := by
    rw [(updateMetrics_frame c c1 pid app s1 hfirst).1]
    exact load_store_self _ _ _
  obtain ⟨c2, e, hl, w⟩ := applySnapshots_series pid app rest c1 s1 hload hmono
  refine ⟨c2, ?_, hl, ?_⟩
  · rw [applySnapshots_cons_of_some c c1 pid app s1 rest hfirst]
    exact e
  · obtain ⟨w1, w2, w3, w4, w5⟩ := w
    exact ⟨w1, w2, w3, w4, w5, fun f s0 hn hc => addAll_increments_of_natural f rest s1 s0 hn hc⟩

/-- The snapshots `exampleFirst`, `exampleSecond` of pid 101 on a new collector meet the
hypotheses of the amended claim C10. -/
theorem applySnapshots_accumulates_increments_witness :
    (updateMetrics NewJvmGcCollector 101 "app" exampleFirst = some exampleCollector ∧
      List.Chain' countersLe [exampleFirst, exampleSecond]) ∧
    ∃ c2, applySnapshots NewJvmGcCollector 101 "app" [exampleFirst, exampleSecond] = some c2 ∧
      c2.lastMetrics.load 101 =
        some ([exampleFirst, exampleSecond].getLast
          (List.cons_ne_nil exampleFirst [exampleSecond])) ∧
      (c2.counters "young_gc_count" ⟨itoa 101, "app"⟩).getD CounterSeries.zero =
        ((exampleCollector.counters "young_gc_count" ⟨itoa 101, "app"⟩).getD CounterSeries.zero).addAll
          (increments gcMetrics.ygc [exampleFirst, exampleSecond]) ∧
      (c2.counters "young_gc_time" ⟨itoa 101, "app"⟩).getD CounterSeries.zero =
        ((exampleCollector.counters "young_gc_time" ⟨itoa 101, "app"⟩).getD CounterSeries.zero).addAll
          (increments gcMetrics.ygct [exampleFirst, exampleSecond]) ∧
      (c2.counters "full_gc_count" ⟨itoa 101, "app"⟩).getD CounterSeries.zero =
        ((exampleCollector.counters "full_gc_count" ⟨itoa 101, "app"⟩).getD CounterSeries.zero).addAll
          (increments gcMetrics.fgc [exampleFirst, exampleSecond]) ∧
      (c2.counters "full_gc_time" ⟨itoa 101, "app"⟩).getD CounterSeries.zero =
        ((exampleCollector.counters "full_gc_time" ⟨itoa 101, "app"⟩).getD CounterSeries.zero).addAll
          (increments gcMetrics.fgct [exampleFirst, exampleSecond]) ∧
      (c2.counters "total_gc_time" ⟨itoa 101, "app"⟩).getD CounterSeries.zero =
        ((exampleCollector.counters "total_gc_time" ⟨itoa 101, "app"⟩).getD CounterSeries.zero).addAll
          (increments gcMetrics.gct [exampleFirst, exampleSecond]) ∧
      ∀ (f : gcMetrics → ℚ) (s0 : CounterSeries),
        (∀ s ∈ [exampleFirst, exampleSecond], ∃ n : ℕ, n ≤ 2 ^ 53 ∧ f s = n) →
        List.Chain' (fun a b => f a ≤ f b) [exampleFirst, exampleSecond] →
        (s0.addAll (increments f [exampleFirst, exampleSecond])).valBits = s0.valBits ∧
        ((s0.addAll (increments f [exampleFirst, exampleSecond])).valInt : ℚ) =
          s0.valInt + (f ([exampleFirst, exampleSecond].getLast
            (List.cons_ne_nil exampleFirst [exampleSecond])) - f exampleFirst) :=
  have hm : List.Chain' countersLe [exampleFirst, exampleSecond] := by
    simp only [List.chain'_cons, List.chain'_singleton, and_true]
    exact ⟨by norm_num [exampleFirst, exampleSecond], le_refl _, le_refl _, le_refl _, le_refl _⟩
  ⟨⟨updateMetrics_of_load_none _ _ _ _ rfl, hm⟩,
    applySnapshots_accumulates_increments NewJvmGcCollector exampleCollector 101 "app"
      exampleFirst [exampleSecond] (updateMetrics_of_load_none _ _ _ _ rfl) hm⟩

end JvmGc
